import Mathlib

/-!
Verification of the core stripping engine of `nbstripout` (`nbstripout/_utils.py`)
against its natural-language specification.

Notebook documents are JSON-like Python values: we embed them as the inductive
type `PyVal` (null, bool, int, string, list, dict with string keys, dicts being
insertion-ordered association lists, as Python dicts are).  Python's fallible
operations (`in` on arbitrary values, attribute access on `NotebookNode`,
subscripting, `.get`) are embedded as `Except PyErr` computations; the
repository's own `MetadataError` is the distinguished error `PyErr.metadataError`,
while every built-in Python exception a malformed document can trigger
(`TypeError`, `AttributeError`, `KeyError`) is collapsed into `PyErr.shapeError`
(the spec treats all of those uniformly as a "generic failure").
-/

inductive PyVal where
  | none : PyVal
  | bool : Bool → PyVal
  | int : Int → PyVal
  | str : String → PyVal
  | list : List PyVal → PyVal
  | dict : List (String × PyVal) → PyVal

inductive PyErr where
  /-- The repository's own `MetadataError` exception. -/
  | metadataError : PyErr
  /-- Any built-in Python exception raised on a malformed document shape
  (`TypeError`, `AttributeError`, `KeyError`). -/
  | shapeError : PyErr
deriving DecidableEq

/-- Python `key in d` for a dict: membership among the keys. -/
def dictHas : List (String × PyVal) → String → Bool
  | [], _ => false
  | (k', _) :: rest, k => k' == k || dictHas rest k

/-- Python `d.get(key, default)` / `d[key]` for a present key: first binding wins
(a real Python dict has unique keys, so "first" is "the" binding). -/
def dictGetD : List (String × PyVal) → String → PyVal → PyVal
  | [], _, dflt => dflt
  | (k', v') :: rest, k, dflt => if k' == k then v' else dictGetD rest k dflt

/-- Python `d[key] = v`: overwrite in place if the key exists (keeping its
position, as Python dicts do), otherwise append at the end. -/
def dictSet : List (String × PyVal) → String → PyVal → List (String × PyVal)
  | [], k, v => [(k, v)]
  | (k', v') :: rest, k, v =>
    if k' == k then (k, v) :: rest else (k', v') :: dictSet rest k v

/-- Python `d.pop(key)` key removal: delete the (first) binding of `k`,
preserving the order of the other bindings. -/
def dictErase : List (String × PyVal) → String → List (String × PyVal)
  | [], _ => []
  | (k', v') :: rest, k =>
    if k' == k then rest else (k', v') :: dictErase rest k

/-- Python truthiness `bool(v)`. -/
def pyBool : PyVal → Bool
  | PyVal.none => false
  | PyVal.bool b => b
  | PyVal.int n => n != 0
  | PyVal.str s => s != ""
  | PyVal.list l => !l.isEmpty
  | PyVal.dict m => !m.isEmpty

/-- Tests whether the first list starts the second one (helper for the
substring test below). -/
def charsStartWith : List Char → List Char → Bool
  | [], _ => true
  | _ :: _, [] => false
  | a :: as, b :: bs => a == b && charsStartWith as bs

/-- Contiguous-substring test on character lists (Python `needle in haystack`
for strings). -/
def charsInfix (needle : List Char) : List Char → Bool
  | [] => needle.isEmpty
  | c :: cs => charsStartWith needle (c :: cs) || charsInfix needle cs

/-- Python `needle in container` for a string needle: key membership for dicts,
element membership for lists, substring test for strings; any other container
raises `TypeError`. -/
def pyContains (container : PyVal) (needle : String) : Except PyErr Bool :=
  match container with
  | PyVal.dict m => Except.ok (dictHas m needle)
  | PyVal.list l =>
    Except.ok (l.any (fun v => match v with
      | PyVal.str t => t == needle
      | _ => false))
  | PyVal.str s => Except.ok (charsInfix needle.data s.data)
  | _ => Except.error PyErr.shapeError

/-- `NotebookNode` attribute access `v.k` (equivalently `v[k]` on a dict):
the value when `v` is a mapping holding `k`, otherwise `AttributeError`. -/
def pyAttr (v : PyVal) (k : String) : Except PyErr PyVal :=
  match v with
  | PyVal.dict m =>
    if dictHas m k then Except.ok (dictGetD m k PyVal.none)
    else Except.error PyErr.shapeError
  | _ => Except.error PyErr.shapeError

/-- Python subscript `v[k]` with a string key: dict lookup; subscripting a
string or list with a string key is a `TypeError`. -/
def pyGetItem (v : PyVal) (k : String) : Except PyErr PyVal :=
  match v with
  | PyVal.dict m =>
    if dictHas m k then Except.ok (dictGetD m k PyVal.none)
    else Except.error PyErr.shapeError
  | _ => Except.error PyErr.shapeError

/-- Python `v[k] = x` item assignment: only mappings support it. -/
def pySetItem (v : PyVal) (k : String) (x : PyVal) : Except PyErr PyVal :=
  match v with
  | PyVal.dict m => Except.ok (PyVal.dict (dictSet m k x))
  | _ => Except.error PyErr.shapeError

/-- Python `v.get(k, dflt)`: a method that only dicts have
(`AttributeError` otherwise). -/
def pyDictGetD (v : PyVal) (k : String) (dflt : PyVal) : Except PyErr PyVal :=
  match v with
  | PyVal.dict m => Except.ok (dictGetD m k dflt)
  | _ => Except.error PyErr.shapeError

/-- Python iteration `for x in v`: a list yields its elements, a string its
characters (as one-character strings), a dict its keys; anything else raises
`TypeError`. -/
def pyIterate (v : PyVal) : Except PyErr (List PyVal) :=
  match v with
  | PyVal.list l => Except.ok l
  | PyVal.str s => Except.ok (s.data.map (fun c => PyVal.str (String.mk [c])))
  | PyVal.dict m => Except.ok (m.map (fun kv => PyVal.str kv.1))
  | _ => Except.error PyErr.shapeError

mutual
/-- Recursively sums the length of all strings in `item`
(source: `get_size`); scalars contribute the length of their `str()` form
(`len(str(None)) = 4`, `len(str(True)) = 4`, `len(str(False)) = 5`). -/
def get_size : PyVal → Nat
  | PyVal.str s => s.length
  | PyVal.list l => get_size_list l
  | PyVal.dict m => get_size_entries m
  | PyVal.int n => (toString n).length
  | PyVal.bool b => if b then 4 else 5
  | PyVal.none => 4
def get_size_list : List PyVal → Nat
  | [] => 0
  | x :: xs => get_size x + get_size_list xs
def get_size_entries : List (String × PyVal) → Nat
  | [] => 0
  | kv :: xs => get_size kv.2 + get_size_entries xs
end

/-- Splits a character list at its first `'.'`:
`some (head, tail)` when a dot occurs, `none` otherwise
(Python `key.split('.', maxsplit=1)` together with the `'.' in key` test). -/
def splitFirstDotAux : List Char → Option (List Char × List Char)
  | [] => Option.none
  | c :: cs =>
    if c = '.' then Option.some ([], cs)
    else
      match splitFirstDotAux cs with
      | Option.some (h, t) => Option.some (c :: h, t)
      | Option.none => Option.none

def splitFirstDot (s : String) : Option (String × String) :=
  match splitFirstDotAux s.data with
  | Option.some (h, t) => Option.some (String.mk h, String.mk t)
  | Option.none => Option.none

/-- Fuel-indexed body of `pop_recursive`.  The fuel only serves to make the
recursion structural; `pop_recursive` below supplies enough fuel
(`key.length + 1`) for the fuel never to run out, since each recursive call's
key is the strictly shorter part after the first dot
(`popRecF_fuel_irrelevant`). -/
def popRecF : Nat → PyVal → String → PyVal → PyVal × PyVal
  | 0, d, _, default => (default, d)
  | fuel + 1, d, key, default =>
    match d with
    | PyVal.dict m =>
      -- `if key in d: return d.pop(key, default)`
      if dictHas m key then (dictGetD m key default, PyVal.dict (dictErase m key))
      else
        -- `if '.' not in key: return default`
        match splitFirstDot key with
        | Option.none => (default, d)
        | Option.some (head, tail) =>
          -- `if key_head in d: return pop_recursive(d[key_head], key_tail, default)`
          if dictHas m head then
            let r := popRecF fuel (dictGetD m head PyVal.none) tail default
            (r.1, PyVal.dict (dictSet m head r.2))
          else (default, d)
    | _ => (default, d)

/-- `dict.pop(key)` where `key` is a `.`-delimited list of nested keys
(source: `pop_recursive`).  Returns the popped value (or the default) together
with the updated container (Python mutates in place). -/
def pop_recursive (d : PyVal) (key : String) (default : PyVal := PyVal.none) :
    PyVal × PyVal :=
  popRecF (key.length + 1) d key default

/-- The tri-state keep/strip decision domain: Python `True`/`False`/`None`
(`None` is what an unset default propagates). -/
def truthy : Option Bool → Bool
  | Option.some b => b
  | Option.none => false

/-- Given a cell, determine whether output should be kept
(source: `determine_keep_output`).  The default may be the unset tri-state
`None` (here `Option.none`). -/
def determine_keep_output (cell : PyVal) (default : Option Bool)
    (strip_init_cells : Bool) : Except PyErr (Option Bool) :=
  -- `if 'metadata' not in cell: return default`
  match pyContains cell "metadata" with
  | Except.error e => Except.error e
  | Except.ok false => Except.ok default
  | Except.ok true =>
    match pyAttr cell "metadata" with
    | Except.error e => Except.error e
    | Except.ok md =>
      -- `if 'init_cell' in cell.metadata: return bool(...) and not strip_init_cells`
      match pyContains md "init_cell" with
      | Except.error e => Except.error e
      | Except.ok true =>
        match pyAttr md "init_cell" with
        | Except.error e => Except.error e
        | Except.ok iv => Except.ok (Option.some (pyBool iv && !strip_init_cells))
      | Except.ok false =>
        match pyContains md "keep_output" with
        | Except.error e => Except.error e
        | Except.ok hasKOmd =>
          match pyDictGetD md "keep_output" (PyVal.bool false) with
          | Except.error e => Except.error e
          | Except.ok kov =>
            -- `koMd` in the source is the local alias `bool(...)` = `pyBool kov`
            match pyDictGetD md "tags" (PyVal.list []) with
            | Except.error e => Except.error e
            | Except.ok tags =>
              match pyContains tags "keep_output" with
              | Except.error e => Except.error e
              | Except.ok hasTag =>
                -- `keep_output` between metadata and tags must not contradict
                if hasKOmd && hasTag && !pyBool kov then
                  Except.error PyErr.metadataError
                else if hasKOmd || hasTag then
                  Except.ok (Option.some (pyBool kov || hasTag))
                else Except.ok default

structure StripArgs where
  keep_output : Option Bool
  keep_count : Bool
  extra_keys : List String := []
  drop_empty_cells : Bool := false
  drop_tagged_cells : List String := []
  strip_init_cells : Bool := false
  max_size : Int := 0

/-- Resolution of the effective `keep_output` value (source: `strip_output`,
lines 117-119): if the configured value is the unset tri-state `None` and the
notebook metadata has a `keep_output` key, use that key's truthiness. -/
def resolveKeepOutput (nb : PyVal) (keep_output : Option Bool) :
    Except PyErr (Option Bool) :=
  match keep_output with
  | Option.some b => Except.ok (Option.some b)
  | Option.none =>
    match pyAttr nb "metadata" with
    | Except.error e => Except.error e
    | Except.ok md =>
      match pyContains md "keep_output" with
      | Except.error e => Except.error e
      | Except.ok true =>
        match pyGetItem md "keep_output" with
        | Except.error e => Except.error e
        | Except.ok v => Except.ok (Option.some (pyBool v))
      | Except.ok false => Except.ok Option.none

def warnMsg (key : String) : String :=
  "Ignoring invalid extra key `" ++ key ++ "`\n"

/-- Partition of `extra_keys` into `metadata.*` subkeys, `cell.*` subkeys and
warnings for invalid keys (source: `strip_output`, lines 121-127).  A key with
no dot, or whose root segment is neither `cell` nor `metadata`, is skipped with
a warning. -/
def classifyKeys : List String → List String × List String × List String
  | [] => ([], [], [])
  | k :: ks =>
    let r := classifyKeys ks
    match splitFirstDot k with
    | Option.some (h, t) =>
      if h == "metadata" then (t :: r.1, r.2.1, r.2.2)
      else if h == "cell" then (r.1, t :: r.2.1, r.2.2)
      else (r.1, r.2.1, warnMsg k :: r.2.2)
    | Option.none => (r.1, r.2.1, warnMsg k :: r.2.2)

/-- Removal of the notebook-level `metadata.*` extra keys (source:
`strip_output`, lines 129-130).  `nb.metadata` is only accessed when the
group is non-empty (the access is inside the loop body). -/
def popMetadataKeys (nb : PyVal) (mks : List String) : Except PyErr PyVal :=
  match mks with
  | [] => Except.ok nb
  | _ :: _ =>
    match pyAttr nb "metadata" with
    | Except.error e => Except.error e
    | Except.ok md =>
      let md' := mks.foldl (fun m k => (pop_recursive m k PyVal.none).2) md
      pySetItem nb "metadata" md'

/-- Short-circuiting Python `any(line.strip() for line in lines)` over a list:
stops at the first line whose stripped form is non-empty, so a later
non-string element (which would raise `AttributeError`) is never evaluated. -/
def pyAnyStrip : List PyVal → Except PyErr Bool
  | [] => Except.ok false
  | x :: xs =>
    match x with
    | PyVal.str s => if s.trim != "" then Except.ok true else pyAnyStrip xs
    | _ => Except.error PyErr.shapeError

/-- The `drop_empty_cells` predicate
`lambda c: any(line.strip() for line in c.get('source', []))`.
Iterating a string source yields its characters and a dict yields its keys
(all strings, so no failure is possible there). -/
def dropEmptyCond (c : PyVal) : Except PyErr Bool :=
  match c with
  | PyVal.dict cm =>
    match dictGetD cm "source" (PyVal.list []) with
    | PyVal.list ls => pyAnyStrip ls
    | PyVal.str s => Except.ok (s.data.any (fun ch => !ch.isWhitespace))
    | PyVal.dict m => Except.ok (m.any (fun kv => kv.1.trim != ""))
    | _ => Except.error PyErr.shapeError
  | _ => Except.error PyErr.shapeError

/-- The tag-dropping predicate
`lambda c: tag_to_drop not in c.get("metadata", {}).get("tags", [])`. -/
def dropTagCond (tag : String) (c : PyVal) : Except PyErr Bool :=
  match c with
  | PyVal.dict cm =>
    match dictGetD cm "metadata" (PyVal.dict []) with
    | PyVal.dict md =>
      match pyContains (dictGetD md "tags" (PyVal.list [])) tag with
      | Except.error e => Except.error e
      | Except.ok b => Except.ok !b
    | _ => Except.error PyErr.shapeError
  | _ => Except.error PyErr.shapeError

/-- The conditionals list built by `strip_output` (lines 132-137).  The Python
lambdas appended in `for tag_to_drop in args.drop_tagged_cells:` capture the
loop variable `tag_to_drop` by reference, and they are first called only
inside the `_cells` generator, after the loop has finished; at that point the
variable holds the final tag, so every one of the `drop_tagged_cells.length`
appended predicates tests the last tag of the list. -/
def conditionals (dropEmpty : Bool) (dropTags : List String) :
    List (PyVal → Except PyErr Bool) :=
  (if dropEmpty then [dropEmptyCond] else []) ++
  (match dropTags.getLast? with
   | Option.some t => List.replicate dropTags.length (dropTagCond t)
   | Option.none => [])

/-- Python `list(filter(p, xs))` with a fallible predicate: elements are tested
left to right and an exception aborts the whole filter. -/
def pyFilter (p : PyVal → Except PyErr Bool) : List PyVal → Except PyErr (List PyVal)
  | [] => Except.ok []
  | x :: xs =>
    match p x with
    | Except.error e => Except.error e
    | Except.ok true =>
      match pyFilter p xs with
      | Except.error e => Except.error e
      | Except.ok r => Except.ok (x :: r)
    | Except.ok false => pyFilter p xs

/-- Sequential application of the conditionals over a cell list
(`nb.cells = list(filter(conditional, nb.cells))` for each conditional). -/
def applyConditionals :
    List (PyVal → Except PyErr Bool) → List PyVal → Except PyErr (List PyVal)
  | [], cells => Except.ok cells
  | p :: ps, cells =>
    match pyFilter p cells with
    | Except.error e => Except.error e
    | Except.ok cells' => applyConditionals ps cells'

/-- Left-to-right traversal applying a fallible transformation to every
element, aborting at the first failure (the effect of a Python `for` loop
body over the elements). -/
def pyMapM (f : PyVal → Except PyErr PyVal) : List PyVal → Except PyErr (List PyVal)
  | [] => Except.ok []
  | x :: xs =>
    match f x with
    | Except.error e => Except.error e
    | Except.ok y =>
      match pyMapM f xs with
      | Except.error e => Except.error e
      | Except.ok ys => Except.ok (y :: ys)

/-- Nulls the `execution_count` field of one output if present
(source: `strip_output`, lines 152-154). -/
def nullOutputCount (o : PyVal) : Except PyErr PyVal :=
  match pyContains o "execution_count" with
  | Except.error e => Except.error e
  | Except.ok true => pySetItem o "execution_count" PyVal.none
  | Except.ok false => Except.ok o

/-- The `for output in cell['outputs']` nulling loop.  When the container is a
(degenerate) string or dict, iteration yields fresh immutable strings, which
the loop body cannot mutate: the loop either fails or leaves the container
unchanged. -/
def nullOutputCounts (outs : PyVal) : Except PyErr PyVal :=
  match pyIterate outs with
  | Except.error e => Except.error e
  | Except.ok items =>
    match pyMapM nullOutputCount items with
    | Except.error e => Except.error e
    | Except.ok items' =>
      match outs with
      | PyVal.list _ => Except.ok (PyVal.list items')
      | _ => Except.ok outs

/-- The output size filter
`[output for output in cell['outputs'] if get_size(output) <= args.max_size]`. -/
def filterBySize (maxSize : Int) (outs : List PyVal) : List PyVal :=
  outs.filter (fun o => decide ((get_size o : Int) ≤ maxSize))

/-- The counter-nulling tail of the per-cell loop (lines 158-166): null
`prompt_number` and `execution_count` on the cell when `keep_count` is false
(each guard evaluates the `in` test before the flag, as Python's `and` does),
then pop every `cell.*` extra key. -/
def stripCellCounts (keepCount : Bool) (cellKeys : List String) (cell1 : PyVal) :
    Except PyErr PyVal :=
  -- `if 'prompt_number' in cell and not args.keep_count:`
  match pyContains cell1 "prompt_number" with
  | Except.error e => Except.error e
  | Except.ok hasPN =>
    match (if hasPN && !keepCount then pySetItem cell1 "prompt_number" PyVal.none
      else Except.ok cell1) with
    | Except.error e => Except.error e
    | Except.ok cell2 =>
      match pyContains cell2 "execution_count" with
      | Except.error e => Except.error e
      | Except.ok hasEC =>
        match (if hasEC && !keepCount then pySetItem cell2 "execution_count" PyVal.none
          else Except.ok cell2) with
        | Except.error e => Except.error e
        | Except.ok cell3 =>
          Except.ok (cellKeys.foldl (fun c k => (pop_recursive c k PyVal.none).2) cell3)

/-- The per-cell body of `strip_output`'s main loop (lines 140-166): resolve
the keep-output decision, filter/null the outputs, null the cell counters,
then pop the `cell.*` extra keys.  Where the Python code leaves a field
untouched but our functional embedding writes it back, the written value is
the unchanged one. -/
def processCell (keepCount : Bool) (maxSize : Int) (stripInit : Bool)
    (ko : Option Bool) (cellKeys : List String) (cell : PyVal) :
    Except PyErr PyVal :=
  match determine_keep_output cell ko stripInit with
  | Except.error e => Except.error e
  | Except.ok kthis =>
    -- `if 'outputs' in cell:`
    match pyContains cell "outputs" with
    | Except.error e => Except.error e
    | Except.ok hasOut =>
      let step1 : Except PyErr PyVal :=
        if hasOut then
          match pyGetItem cell "outputs" with
          | Except.error e => Except.error e
          | Except.ok outs =>
            let filtered : Except PyErr PyVal :=
              if !truthy kthis then
                match pyIterate outs with
                | Except.error e => Except.error e
                | Except.ok items => Except.ok (PyVal.list (filterBySize maxSize items))
              else Except.ok outs
            match filtered with
            | Except.error e => Except.error e
            | Except.ok outs1 =>
              let nulled : Except PyErr PyVal :=
                if !keepCount then nullOutputCounts outs1 else Except.ok outs1
              match nulled with
              | Except.error e => Except.error e
              | Except.ok outs2 => pySetItem cell "outputs" outs2
        else Except.ok cell
      match step1 with
      | Except.error e => Except.error e
      | Except.ok cell1 => stripCellCounts keepCount cellKeys cell1

/-- The cell collection traversal of `_cells` for one cell sequence: apply the
conditionals (reassigning the collection, which turns it into a list), then
process every surviving cell.  When there are no conditionals the collection
is never reassigned; iterating a (degenerate) string or dict then yields
fresh immutable strings that the processing cannot alter, so the container is
returned unchanged after running the processing for its failure effects. -/
def cellsPipeline (conds : List (PyVal → Except PyErr Bool))
    (proc : PyVal → Except PyErr PyVal) (cells0 : PyVal) : Except PyErr PyVal :=
  match conds with
  | [] =>
    match cells0 with
    | PyVal.list l =>
      match pyMapM proc l with
      | Except.error e => Except.error e
      | Except.ok l' => Except.ok (PyVal.list l')
    | PyVal.str s =>
      match pyMapM proc (s.data.map (fun c => PyVal.str (String.mk [c]))) with
      | Except.error e => Except.error e
      | Except.ok _ => Except.ok cells0
    | PyVal.dict m =>
      match pyMapM proc (m.map (fun kv => PyVal.str kv.1)) with
      | Except.error e => Except.error e
      | Except.ok _ => Except.ok cells0
    | _ => Except.error PyErr.shapeError
  | c :: cs =>
    match pyIterate cells0 with
    | Except.error e => Except.error e
    | Except.ok items =>
      match pyFilter c items with
      | Except.error e => Except.error e
      | Except.ok l1 =>
        match applyConditionals cs l1 with
        | Except.error e => Except.error e
        | Except.ok lF =>
          match pyMapM proc lF with
          | Except.error e => Except.error e
          | Except.ok l' => Except.ok (PyVal.list l')

/-- One worksheet of a legacy (`nbformat < 4`) document: its own `cells`
sequence is filtered and processed independently (source: `_cells`,
lines 46-51). -/
def processWorksheet (conds : List (PyVal → Except PyErr Bool))
    (proc : PyVal → Except PyErr PyVal) (ws : PyVal) : Except PyErr PyVal :=
  match ws with
  | PyVal.dict w =>
    if dictHas w "cells" then
      match cellsPipeline conds proc (dictGetD w "cells" PyVal.none) with
      | Except.error e => Except.error e
      | Except.ok cells' => Except.ok (PyVal.dict (dictSet w "cells" cells'))
    else Except.error PyErr.shapeError
  | _ => Except.error PyErr.shapeError

/-- Version test `nb.nbformat < 4` (a bool compares as its integer value;
any other operand raises `TypeError`). -/
def nbfLt4 (v : PyVal) : Except PyErr Bool :=
  match v with
  | PyVal.int n => Except.ok (decide (n < 4))
  | PyVal.bool b => Except.ok (decide ((if b then (1 : Int) else 0) < 4))
  | _ => Except.error PyErr.shapeError

/-- The `_cells` dispatch combined with the per-cell loop of `strip_output`:
for `nbformat < 4` each worksheet's cells are handled independently, otherwise
the notebook's `cells` sequence is handled once. -/
def cellsStage (conds : List (PyVal → Except PyErr Bool))
    (proc : PyVal → Except PyErr PyVal) (nb1 : PyVal) : Except PyErr PyVal :=
  match pyAttr nb1 "nbformat" with
  | Except.error e => Except.error e
  | Except.ok nbf =>
    match nbfLt4 nbf with
    | Except.error e => Except.error e
    | Except.ok true =>
      match pyAttr nb1 "worksheets" with
      | Except.error e => Except.error e
      | Except.ok wss =>
        match pyIterate wss with
        | Except.error e => Except.error e
        | Except.ok items =>
          match pyMapM (processWorksheet conds proc) items with
          | Except.error e => Except.error e
          | Except.ok items' =>
            match wss with
            | PyVal.list _ => pySetItem nb1 "worksheets" (PyVal.list items')
            | _ => Except.ok nb1
    | Except.ok false =>
      match pyAttr nb1 "cells" with
      | Except.error e => Except.error e
      | Except.ok cells0 =>
        match cellsPipeline conds proc cells0 with
        | Except.error e => Except.error e
        | Except.ok cells' => pySetItem nb1 "cells" cells'

/-- Strip the outputs, execution counts/prompt numbers and miscellaneous
metadata from a notebook document (source: `strip_output`).  The second
component of the result is the list of warning lines written to `stderr`
(one per invalid extra key); the first is the transformed document, or the
error the Python code would raise (`PyErr.metadataError` for the repository's
`MetadataError`, `PyErr.shapeError` for any built-in exception on a malformed
document). -/
def strip_output (nb : PyVal) (args : StripArgs) :
    Except PyErr PyVal × List String :=
  match resolveKeepOutput nb args.keep_output with
  | Except.error e => (Except.error e, [])
  | Except.ok ko =>
    let r := classifyKeys args.extra_keys
    let result : Except PyErr PyVal :=
      match popMetadataKeys nb r.1 with
      | Except.error e => Except.error e
      | Except.ok nb1 =>
        cellsStage (conditionals args.drop_empty_cells args.drop_tagged_cells)
          (processCell args.keep_count args.max_size args.strip_init_cells ko r.2.1)
          nb1
    (result, r.2.2)

/-- An `extra_keys` entry the code rejects with a warning: no dot at all, or a
root segment other than `metadata` / `cell` (source: `strip_output`,
line 123). -/
def invalidExtraKey (key : String) : Bool :=
  match splitFirstDot key with
  | Option.some (h, _) => !(h == "metadata" || h == "cell")
  | Option.none => true

/-- Fuel-indexed success condition of `pop_recursive`: the traversal reaches a
binding it pops (either the whole remaining key as a literal key, or a head
segment to recurse into whose sub-traversal succeeds). -/
def resolvesF : Nat → PyVal → String → Bool
  | 0, _, _ => false
  | fuel + 1, PyVal.dict m, key =>
    dictHas m key ||
      (match splitFirstDot key with
       | Option.some (h, t) => dictHas m h && resolvesF fuel (dictGetD m h PyVal.none) t
       | Option.none => false)
  | _ + 1, _, _ => false

/-- The dotted path fully resolves in `d`: exactly when `pop_recursive`
performs a removal rather than falling through to its default. -/
def resolves (d : PyVal) (key : String) : Bool := resolvesF (key.length + 1) d key

/-- Python `v is None` test on an embedded value. -/
def isNoneV : PyVal → Bool
  | PyVal.none => true
  | _ => false

/-- An output mapping whose `execution_count` field, if present, is null. -/
def outputNulled (o : PyVal) : Bool :=
  match o with
  | PyVal.dict m =>
    !dictHas m "execution_count" || isNoneV (dictGetD m "execution_count" (PyVal.bool true))
  | _ => true

/-- A cell whose `prompt_number` and `execution_count` fields, if present, are
null, and whose `outputs` (when a list) contains only `outputNulled` outputs. -/
def cellCountsNulled (cell : PyVal) : Bool :=
  match cell with
  | PyVal.dict c =>
    (!dictHas c "prompt_number" || isNoneV (dictGetD c "prompt_number" (PyVal.bool true))) &&
    (!dictHas c "execution_count" || isNoneV (dictGetD c "execution_count" (PyVal.bool true))) &&
    (match dictGetD c "outputs" (PyVal.list []) with
     | PyVal.list os => os.all outputNulled
     | _ => true)
  | _ => true

/-- The key sequence of an association-list dict has no duplicates (always the
case for a dict produced by a real Python/JSON document). -/
def keysNodup : List (String × PyVal) → Bool
  | [] => true
  | (k, _) :: rest => !dictHas rest k && keysNodup rest

/-- A value whose top-level dict (if it is one) has pairwise-distinct keys. -/
def topNodup : PyVal → Bool
  | PyVal.dict m => keysNodup m
  | _ => true

/-- The cells of one legacy worksheet (empty for degenerate shapes). -/
def wsCells (w : PyVal) : List PyVal :=
  match w with
  | PyVal.dict wd =>
    match dictGetD wd "cells" (PyVal.list []) with
    | PyVal.list cs => cs
    | _ => []
  | _ => []

/-- The cells of a document, following the same version dispatch as `_cells`:
the per-worksheet cells for `nbformat < 4`, the top-level `cells` sequence
otherwise (degenerate non-list collections contribute no cells). -/
def docCells (r : PyVal) : List PyVal :=
  match r with
  | PyVal.dict n =>
    match nbfLt4 (dictGetD n "nbformat" PyVal.none) with
    | Except.ok true =>
      match dictGetD n "worksheets" (PyVal.list []) with
      | PyVal.list wss => wss.foldr (fun w acc => wsCells w ++ acc) []
      | _ => []
    | _ =>
      match dictGetD n "cells" (PyVal.list []) with
      | PyVal.list cs => cs
      | _ => []
  | _ => []

/-! ## Supporting lemmas -/

theorem splitFirstDotAux_length {cs h t : List Char}
    (hs : splitFirstDotAux cs = Option.some (h, t)) : t.length < cs.length := by
  induction cs generalizing h t with
  | nil => simp [splitFirstDotAux] at hs
  | cons c cs ih =>
    by_cases hc : c = '.'
    · simp only [splitFirstDotAux, if_pos hc, Option.some.injEq, Prod.mk.injEq] at hs
      obtain ⟨h1, h2⟩ := hs
      subst h2
      exact Nat.lt_succ_self cs.length
    · simp only [splitFirstDotAux, if_neg hc] at hs
      cases hrec : splitFirstDotAux cs with
      | none => rw [hrec] at hs; simp at hs
      | some p =>
        rw [hrec] at hs
        cases p with
        | mk h' t' =>
          simp only [Option.some.injEq, Prod.mk.injEq] at hs
          obtain ⟨h1, h2⟩ := hs
          subst h2
          have := ih (h := h') (t := t') hrec
          calc t'.length < cs.length := this
            _ < (c :: cs).length := Nat.lt_succ_self cs.length

theorem splitFirstDot_length {s : String} {h t : String}
    (hs : splitFirstDot s = Option.some (h, t)) : t.length < s.length := by
  unfold splitFirstDot at hs
  cases hrec : splitFirstDotAux s.data with
  | none => rw [hrec] at hs; simp at hs
  | some p =>
    rw [hrec] at hs
    cases p with
    | mk h' t' =>
      simp only [Option.some.injEq, Prod.mk.injEq] at hs
      obtain ⟨h1, h2⟩ := hs
      subst h2
      exact splitFirstDotAux_length hrec

theorem popRecF_fuel_irrelevant :
    ∀ (f₁ f₂ : Nat) (d : PyVal) (key : String) (default : PyVal),
      key.length < f₁ → key.length < f₂ →
      popRecF f₁ d key default = popRecF f₂ d key default := by
  intro f₁
  induction f₁ with
  | zero => intro f₂ d key default h₁ _; omega
  | succ f ih =>
    intro f₂ d key default h₁ h₂
    cases f₂ with
    | zero => omega
    | succ f' =>
      show popRecF (f + 1) d key default = popRecF (f' + 1) d key default
      cases d with
      | dict m =>
        simp only [popRecF]
        cases hk : dictHas m key with
        | true => simp [hk]
        | false =>
          simp only [hk, Bool.false_eq_true, if_false]
          cases hs : splitFirstDot key with
          | none => rfl
          | some p =>
            cases p with
            | mk head tail =>
              have hlen := splitFirstDot_length hs
              have heq := ih f' (dictGetD m head PyVal.none) tail default
                (by omega) (by omega)
              simp [heq]
      | none => rfl
      | bool b => rfl
      | int n => rfl
      | str s => rfl
      | list l => rfl

/-- Unfolding equation of `pop_recursive`, mirroring the Python source line by
line. -/
theorem pop_recursive_eq (d : PyVal) (key : String) (default : PyVal) :
    pop_recursive d key default =
      match d with
      | PyVal.dict m =>
        if dictHas m key then (dictGetD m key default, PyVal.dict (dictErase m key))
        else
          match splitFirstDot key with
          | Option.none => (default, d)
          | Option.some (head, tail) =>
            if dictHas m head then
              let r := pop_recursive (dictGetD m head PyVal.none) tail default
              (r.1, PyVal.dict (dictSet m head r.2))
            else (default, d)
      | _ => (default, d) := by
  show popRecF (key.length + 1) d key default = _
  cases d with
  | dict m =>
    simp only [popRecF]
    cases hk : dictHas m key with
    | true => simp [hk]
    | false =>
      simp only [hk, Bool.false_eq_true, if_false]
      cases hs : splitFirstDot key with
      | none => rfl
      | some p =>
        cases p with
        | mk head tail =>
          have hlen := splitFirstDot_length hs
          have heq := popRecF_fuel_irrelevant key.length (tail.length + 1)
            (dictGetD m head PyVal.none) tail default (by omega) (by omega)
          simp [pop_recursive, heq]
  | none => rfl
  | bool b => rfl
  | int n => rfl
  | str s => rfl
  | list l => rfl

theorem dictGetD_dictSet_self (m : List (String × PyVal)) (k : String) (v d : PyVal) :
    dictGetD (dictSet m k v) k d = v := by
  induction m with
  | nil => simp [dictSet, dictGetD]
  | cons kv rest ih =>
    obtain ⟨k', v'⟩ := kv
    by_cases hk : (k' == k) = true
    · simp [dictSet, hk, dictGetD]
    · simp only [dictSet, hk, Bool.false_eq_true, if_false]
      simp [dictGetD, hk, ih]

theorem dictHas_dictSet_self (m : List (String × PyVal)) (k : String) (v : PyVal) :
    dictHas (dictSet m k v) k = true := by
  induction m with
  | nil => simp [dictSet, dictHas]
  | cons kv rest ih =>
    obtain ⟨k', v'⟩ := kv
    by_cases hk : (k' == k) = true
    · simp [dictSet, hk, dictHas]
    · simp only [dictSet, hk, Bool.false_eq_true, if_false]
      simp [dictHas, hk, ih]

theorem dictGetD_dictSet_ne (m : List (String × PyVal)) {k k' : String} (v d : PyVal)
    (h : k ≠ k') : dictGetD (dictSet m k v) k' d = dictGetD m k' d := by
  induction m with
  | nil => simp [dictSet, dictGetD, h]
  | cons kv rest ih =>
    obtain ⟨k₀, v₀⟩ := kv
    by_cases hk : (k₀ == k) = true
    · have hkk : k₀ = k := eq_of_beq hk
      subst hkk
      simp [dictSet, dictGetD, h, beq_iff_eq]
    · simp only [dictSet, hk, Bool.false_eq_true, if_false]
      simp [dictGetD, ih]

theorem dictHas_dictSet_ne (m : List (String × PyVal)) {k k' : String} (v : PyVal)
    (h : k ≠ k') : dictHas (dictSet m k v) k' = dictHas m k' := by
  induction m with
  | nil => simp [dictSet, dictHas, h]
  | cons kv rest ih =>
    obtain ⟨k₀, v₀⟩ := kv
    by_cases hk : (k₀ == k) = true
    · have hkk : k₀ = k := eq_of_beq hk
      subst hkk
      simp [dictSet, dictHas, beq_iff_eq, h]
    · simp only [dictSet, hk, Bool.false_eq_true, if_false]
      simp [dictHas, ih]

theorem dictSet_getD_self {m : List (String × PyVal)} {k : String} (d : PyVal)
    (h : dictHas m k = true) : dictSet m k (dictGetD m k d) = m := by
  induction m with
  | nil => simp [dictHas] at h
  | cons kv rest ih =>
    obtain ⟨k', v'⟩ := kv
    by_cases hk : (k' == k) = true
    · have hkk : k' = k := eq_of_beq hk
      subst hkk
      simp [dictSet, dictGetD, beq_self_eq_true]
    · simp only [dictHas, hk, Bool.false_or] at h
      simp only [dictSet, dictGetD, hk, Bool.false_eq_true, if_false]
      simp [ih h]

theorem dictGetD_dictErase_ne (m : List (String × PyVal)) {k k' : String} (d : PyVal)
    (h : k ≠ k') : dictGetD (dictErase m k) k' d = dictGetD m k' d := by
  induction m with
  | nil => simp [dictErase]
  | cons kv rest ih =>
    obtain ⟨k₀, v₀⟩ := kv
    by_cases hk : (k₀ == k) = true
    · have hkk : k₀ = k := eq_of_beq hk
      subst hkk
      simp [dictErase, dictGetD, beq_iff_eq, h]
    · simp only [dictErase, hk, Bool.false_eq_true, if_false]
      simp [dictGetD, ih]

theorem dictHas_dictErase_ne (m : List (String × PyVal)) {k k' : String}
    (h : k ≠ k') : dictHas (dictErase m k) k' = dictHas m k' := by
  induction m with
  | nil => simp [dictErase]
  | cons kv rest ih =>
    obtain ⟨k₀, v₀⟩ := kv
    by_cases hk : (k₀ == k) = true
    · have hkk : k₀ = k := eq_of_beq hk
      subst hkk
      simp [dictErase, dictHas, beq_iff_eq, h]
    · simp only [dictErase, hk, Bool.false_eq_true, if_false]
      simp [dictHas, ih]

theorem dictHas_dictErase_self {m : List (String × PyVal)} {k : String}
    (h : keysNodup m = true) : dictHas (dictErase m k) k = false := by
  induction m with
  | nil => simp [dictErase, dictHas]
  | cons kv rest ih =>
    obtain ⟨k', v'⟩ := kv
    simp only [keysNodup, Bool.and_eq_true, Bool.not_eq_eq_eq_not, Bool.not_true] at h
    by_cases hk : (k' == k) = true
    · have hkk : k' = k := eq_of_beq hk
      subst hkk
      simpa [dictErase] using h.1
    · simp only [dictErase, hk, Bool.false_eq_true, if_false]
      simp [dictHas, hk, ih h.2]

theorem keysNodup_dictSet (m : List (String × PyVal)) (k : String) (v : PyVal)
    (h : keysNodup m = true) : keysNodup (dictSet m k v) = true := by
  induction m with
  | nil => simp [dictSet, keysNodup, dictHas]
  | cons kv rest ih =>
    obtain ⟨k', v'⟩ := kv
    simp only [keysNodup, Bool.and_eq_true, Bool.not_eq_eq_eq_not, Bool.not_true] at h
    by_cases hk : (k' == k) = true
    · have hkk : k' = k := eq_of_beq hk
      subst hkk
      simp [dictSet, keysNodup, h.1, h.2]
    · simp only [dictSet, hk, Bool.false_eq_true, if_false]
      have hne : k ≠ k' := fun he => by simp [he] at hk
      simp [keysNodup, dictHas_dictSet_ne rest v hne, h.1, ih h.2]

theorem keysNodup_dictErase (m : List (String × PyVal)) (k : String)
    (h : keysNodup m = true) : keysNodup (dictErase m k) = true := by
  induction m with
  | nil => simp [dictErase, keysNodup]
  | cons kv rest ih =>
    obtain ⟨k', v'⟩ := kv
    simp only [keysNodup, Bool.and_eq_true, Bool.not_eq_eq_eq_not, Bool.not_true] at h
    by_cases hk : (k' == k) = true
    · simp only [dictErase, hk, if_true]
      exact h.2
    · simp only [dictErase, hk, Bool.false_eq_true, if_false]
      have hne : k ≠ k' := fun he => by simp [he] at hk
      simp [keysNodup, dictHas_dictErase_ne rest hne, h.1, ih h.2]

theorem popRecF_unresolved :
    ∀ (fuel : Nat) (d : PyVal) (key : String) (default : PyVal),
      resolvesF fuel d key = false → popRecF fuel d key default = (default, d) := by
  intro fuel
  induction fuel with
  | zero => intro d key default _; rfl
  | succ f ih =>
    intro d key default h
    cases d with
    | dict m =>
      simp only [resolvesF, Bool.or_eq_false_iff] at h
      obtain ⟨h1, h2⟩ := h
      simp only [popRecF, h1, Bool.false_eq_true, if_false]
      cases hs : splitFirstDot key with
      | none => rfl
      | some p =>
        obtain ⟨hd, tl⟩ := p
        rw [hs] at h2
        have h2' : (dictHas m hd && resolvesF f (dictGetD m hd PyVal.none) tl) = false := h2
        show (if dictHas m hd = true then
            ((popRecF f (dictGetD m hd PyVal.none) tl default).1,
              PyVal.dict (dictSet m hd (popRecF f (dictGetD m hd PyVal.none) tl default).2))
          else (default, PyVal.dict m)) = (default, PyVal.dict m)
        cases hh : dictHas m hd with
        | false => simp [hh]
        | true =>
          rw [hh] at h2'
          simp only [Bool.true_and] at h2'
          have hrec := ih (dictGetD m hd PyVal.none) tl default h2'
          simp [hh, hrec, dictSet_getD_self PyVal.none hh]
    | none => rfl
    | bool b => rfl
    | int n => rfl
    | str s => rfl
    | list l => rfl

/-! ## Claim theorems -/

/-- C1: the claim fails on the code.  The lambdas built in
`for tag_to_drop in args.drop_tagged_cells:` capture the loop variable by
reference and first run inside the `_cells` generator after the loop has
finished, so every predicate tests the *last* configured tag.  With
`drop_tagged_cells = ["a", "b"]` a cell whose tags are `["a"]` is kept
(claim says: removed), while the single-tag configuration `["a"]` does remove
it.  This theorem evaluates `strip_output` at that failing input. -/
theorem strip_output_drop_tagged_tests_last_tag_only :
    strip_output
        (PyVal.dict [("nbformat", PyVal.int 4), ("metadata", PyVal.dict []),
          ("cells", PyVal.list [PyVal.dict
            [("metadata", PyVal.dict [("tags", PyVal.list [PyVal.str "a"])])]])])
        { keep_output := Option.some false, keep_count := false,
          drop_tagged_cells := ["a", "b"] } =
      (Except.ok (PyVal.dict [("nbformat", PyVal.int 4), ("metadata", PyVal.dict []),
        ("cells", PyVal.list [PyVal.dict
          [("metadata", PyVal.dict [("tags", PyVal.list [PyVal.str "a"])])]])]), []) ∧
    strip_output
        (PyVal.dict [("nbformat", PyVal.int 4), ("metadata", PyVal.dict []),
          ("cells", PyVal.list [PyVal.dict
            [("metadata", PyVal.dict [("tags", PyVal.list [PyVal.str "a"])])]])])
        { keep_output := Option.some false, keep_count := false,
          drop_tagged_cells := ["a"] } =
      (Except.ok (PyVal.dict [("nbformat", PyVal.int 4), ("metadata", PyVal.dict []),
        ("cells", PyVal.list [])]), []) :=
  ⟨rfl, rfl⟩

/-- C3: `strip_output` is not idempotent.  With `keep_output = false`,
`keep_count = false`, `max_size = 3`, the output
`{"execution_count": 5, "text": "ab"}` has size `1 + 2 = 3` and is retained
by the first pass, which nulls its count to
`{"execution_count": None, "text": "ab"}` (size `4 + 2 = 6`); the second pass
therefore drops it, so `strip(strip(D, C), C) ≠ strip(D, C)`. -/
theorem strip_output_not_idempotent :
    strip_output
        (PyVal.dict [("nbformat", PyVal.int 4), ("metadata", PyVal.dict []),
          ("cells", PyVal.list [PyVal.dict [("outputs", PyVal.list
            [PyVal.dict [("execution_count", PyVal.int 5), ("text", PyVal.str "ab")]])]])])
        { keep_output := Option.some false, keep_count := false, max_size := 3 } =
      (Except.ok (PyVal.dict [("nbformat", PyVal.int 4), ("metadata", PyVal.dict []),
        ("cells", PyVal.list [PyVal.dict [("outputs", PyVal.list
          [PyVal.dict [("execution_count", PyVal.none), ("text", PyVal.str "ab")]])]])]), []) ∧
    strip_output
        (PyVal.dict [("nbformat", PyVal.int 4), ("metadata", PyVal.dict []),
          ("cells", PyVal.list [PyVal.dict [("outputs", PyVal.list
            [PyVal.dict [("execution_count", PyVal.none), ("text", PyVal.str "ab")]])]])])
        { keep_output := Option.some false, keep_count := false, max_size := 3 } =
      (Except.ok (PyVal.dict [("nbformat", PyVal.int 4), ("metadata", PyVal.dict []),
        ("cells", PyVal.list [PyVal.dict [("outputs", PyVal.list [])]])]), []) ∧
    PyVal.dict [("nbformat", PyVal.int 4), ("metadata", PyVal.dict []),
        ("cells", PyVal.list [PyVal.dict [("outputs", PyVal.list [])]])] ≠
      PyVal.dict [("nbformat", PyVal.int 4), ("metadata", PyVal.dict []),
        ("cells", PyVal.list [PyVal.dict [("outputs", PyVal.list
          [PyVal.dict [("execution_count", PyVal.none), ("text", PyVal.str "ab")]])]])] :=
  ⟨rfl, rfl, fun h => absurd (congrArg get_size h) (by decide)⟩

/-- C5: for every cell whose metadata mapping contains an `init_cell` key,
`determine_keep_output` returns `bool(init_cell) AND NOT strip_init_cells`,
overriding any `keep_output` metadata value or tag. -/
theorem determine_keep_output_init_cell (c md : List (String × PyVal))
    (default : Option Bool) (strip_init_cells : Bool)
    (hhas : dictHas c "metadata" = true)
    (hmd : dictGetD c "metadata" PyVal.none = PyVal.dict md)
    (hinit : dictHas md "init_cell" = true) :
    determine_keep_output (PyVal.dict c) default strip_init_cells =
      Except.ok (Option.some
        (pyBool (dictGetD md "init_cell" PyVal.none) && !strip_init_cells)) := by
  unfold determine_keep_output
  simp [pyContains, pyAttr, hhas, hmd, hinit]

/-- Witness for C5, on the claim's own example: `init_cell = true`,
`keep_output = false`, `strip_init_cells` unset ⇒ the output is kept. -/
theorem determine_keep_output_init_cell_witness :
    determine_keep_output
        (PyVal.dict [("metadata", PyVal.dict
          [("init_cell", PyVal.bool true), ("keep_output", PyVal.bool false)])])
        (Option.some false) false = Except.ok (Option.some true) :=
  determine_keep_output_init_cell
    [("metadata", PyVal.dict
      [("init_cell", PyVal.bool true), ("keep_output", PyVal.bool false)])]
    [("init_cell", PyVal.bool true), ("keep_output", PyVal.bool false)]
    (Option.some false) false rfl rfl rfl

/-- C9: a cell whose metadata mapping contains an `init_cell` key never
produces the contradiction error, even with `keep_output = false` in the
metadata and `"keep_output"` among the tags: the init-cell rule returns
before the contradiction check is reached. -/
theorem determine_keep_output_init_cell_no_contradiction
    (c md : List (String × PyVal)) (default : Option Bool) (s : Bool)
    (hhas : dictHas c "metadata" = true)
    (hmd : dictGetD c "metadata" PyVal.none = PyVal.dict md)
    (hinit : dictHas md "init_cell" = true) :
    determine_keep_output (PyVal.dict c) default s ≠
      Except.error PyErr.metadataError := by
  unfold determine_keep_output
  simp [pyContains, pyAttr, hhas, hmd, hinit]

/-- Witness for C9: the contradiction-shaped cell (`keep_output = false` plus
the `"keep_output"` tag) with `init_cell` present does not raise. -/
theorem determine_keep_output_init_cell_no_contradiction_witness :
    determine_keep_output
        (PyVal.dict [("metadata", PyVal.dict
          [("init_cell", PyVal.bool false), ("keep_output", PyVal.bool false),
           ("tags", PyVal.list [PyVal.str "keep_output"])])])
        (Option.some true) false ≠ Except.error PyErr.metadataError :=
  determine_keep_output_init_cell_no_contradiction
    [("metadata", PyVal.dict
      [("init_cell", PyVal.bool false), ("keep_output", PyVal.bool false),
       ("tags", PyVal.list [PyVal.str "keep_output"])])]
    [("init_cell", PyVal.bool false), ("keep_output", PyVal.bool false),
     ("tags", PyVal.list [PyVal.str "keep_output"])]
    (Option.some true) false rfl rfl rfl

/-- C6: the resolution behaviour of `pop_recursive`: (1) when the entire
remaining path exists as a single literal key it is removed and returned
immediately; (2) a dot-free absent key yields the default, unchanged; (3)
otherwise the path splits at the first dot and recursion proceeds through the
value at the head segment (whose updated value is written back); (4) an
absent head segment yields the default, unchanged; (5) a non-mapping
container yields the default, unchanged; and (6) on
`{"a.b": 1, "a": {"b": 2}}` with path `"a.b"`, the literal dotted key wins:
the result is `1` and the mapping becomes `{"a": {"b": 2}}`. -/
theorem pop_recursive_resolution_spec :
    (∀ (m : List (String × PyVal)) (key : String) (default : PyVal),
      (dictHas m key = true →
        pop_recursive (PyVal.dict m) key default =
          (dictGetD m key default, PyVal.dict (dictErase m key))) ∧
      (dictHas m key = false → splitFirstDot key = Option.none →
        pop_recursive (PyVal.dict m) key default = (default, PyVal.dict m)) ∧
      (∀ h t, dictHas m key = false → splitFirstDot key = Option.some (h, t) →
        dictHas m h = true →
        pop_recursive (PyVal.dict m) key default =
          ((pop_recursive (dictGetD m h PyVal.none) t default).1,
            PyVal.dict (dictSet m h (pop_recursive (dictGetD m h PyVal.none) t default).2))) ∧
      (∀ h t, dictHas m key = false → splitFirstDot key = Option.some (h, t) →
        dictHas m h = false →
        pop_recursive (PyVal.dict m) key default = (default, PyVal.dict m))) ∧
    (∀ (d : PyVal) (key : String) (default : PyVal),
      (∀ m, d ≠ PyVal.dict m) → pop_recursive d key default = (default, d)) ∧
    pop_recursive
        (PyVal.dict [("a.b", PyVal.int 1), ("a", PyVal.dict [("b", PyVal.int 2)])])
        "a.b" PyVal.none =
      (PyVal.int 1, PyVal.dict [("a", PyVal.dict [("b", PyVal.int 2)])]) := by
  refine ⟨?_, ?_, rfl⟩
  · intro m key default
    refine ⟨?_, ?_, ?_, ?_⟩
    · intro hk
      rw [pop_recursive_eq]
      simp [hk]
    · intro hk hs
      rw [pop_recursive_eq]
      simp [hk, hs]
    · intro h t hk hs hh
      rw [pop_recursive_eq]
      simp [hk, hs, hh]
    · intro h t hk hs hh
      rw [pop_recursive_eq]
      simp [hk, hs, hh]
  · intro d key default hd
    rw [pop_recursive_eq]
    cases d with
    | dict m => exact absurd rfl (hd m)
    | none => rfl
    | bool b => rfl
    | int n => rfl
    | str s => rfl
    | list l => rfl

/-- Witness for C6: the four resolution clauses instantiated on concrete
mappings (`{"x": 7}` with keys `"x"`, `"y"`, `"x.b"` against `{"x": {"b": 8}}`,
and `"y.b"`), and clause (5) on the non-mapping `3`. -/
theorem pop_recursive_resolution_spec_witness :
    pop_recursive (PyVal.dict [("x", PyVal.int 7)]) "x" PyVal.none =
      (PyVal.int 7, PyVal.dict []) ∧
    pop_recursive (PyVal.dict [("x", PyVal.int 7)]) "y" PyVal.none =
      (PyVal.none, PyVal.dict [("x", PyVal.int 7)]) ∧
    pop_recursive (PyVal.dict [("x", PyVal.dict [("b", PyVal.int 8)])]) "x.b" PyVal.none =
      ((pop_recursive (PyVal.dict [("b", PyVal.int 8)]) "b" PyVal.none).1,
        PyVal.dict (dictSet [("x", PyVal.dict [("b", PyVal.int 8)])] "x"
          (pop_recursive (PyVal.dict [("b", PyVal.int 8)]) "b" PyVal.none).2)) ∧
    pop_recursive (PyVal.dict [("x", PyVal.int 7)]) "y.b" PyVal.none =
      (PyVal.none, PyVal.dict [("x", PyVal.int 7)]) ∧
    pop_recursive (PyVal.int 3) "x" PyVal.none = (PyVal.none, PyVal.int 3) :=
  ⟨(pop_recursive_resolution_spec.1 [("x", PyVal.int 7)] "x" PyVal.none).1 rfl,
   (pop_recursive_resolution_spec.1 [("x", PyVal.int 7)] "y" PyVal.none).2.1 rfl rfl,
   (pop_recursive_resolution_spec.1 [("x", PyVal.dict [("b", PyVal.int 8)])] "x.b"
      PyVal.none).2.2.1 "x" "b" rfl rfl rfl,
   (pop_recursive_resolution_spec.1 [("x", PyVal.int 7)] "y.b" PyVal.none).2.2.2
      "y" "b" rfl rfl rfl,
   pop_recursive_resolution_spec.2.1 (PyVal.int 3) "x" PyVal.none
      (fun m h => by cases h)⟩

/-- C10: `pop_recursive` is total (it is a plain total function of the
embedding — no error outcome exists in its type, matching the Python code,
which can raise nothing) and atomic on failure: whenever the dotted path does
not fully resolve (`resolves` is false: a segment is absent or an intermediate
value — possibly the top-level argument — is not a mapping), it returns the
default and the input container entirely unchanged. -/
theorem pop_recursive_total_atomic (d : PyVal) (key : String) (default : PyVal)
    (h : resolves d key = false) :
    pop_recursive d key default = (default, d) :=
  popRecF_unresolved (key.length + 1) d key default h

/-- Witness for C10: a two-segment path whose head is present but whose tail
hits a non-mapping leaves `{"a": {"x": 1}}` unchanged. -/
theorem pop_recursive_total_atomic_witness :
    resolves (PyVal.dict [("a", PyVal.dict [("x", PyVal.int 1)])]) "a.b.c" = false ∧
    pop_recursive (PyVal.dict [("a", PyVal.dict [("x", PyVal.int 1)])]) "a.b.c" PyVal.none =
      (PyVal.none, PyVal.dict [("a", PyVal.dict [("x", PyVal.int 1)])]) :=
  ⟨rfl, pop_recursive_total_atomic _ _ _ rfl⟩

theorem pyContains_ne_metadataError (v : PyVal) (s : String) :
    pyContains v s ≠ Except.error PyErr.metadataError := by
  cases v <;> simp [pyContains]

theorem pyAttr_ne_metadataError (v : PyVal) (k : String) :
    pyAttr v k ≠ Except.error PyErr.metadataError := by
  cases v with
  | dict m =>
    unfold pyAttr
    by_cases hk : dictHas m k = true
    · simp [hk]
    · simp [hk]
  | none => simp [pyAttr]
  | bool b => simp [pyAttr]
  | int n => simp [pyAttr]
  | str s => simp [pyAttr]
  | list l => simp [pyAttr]

theorem pyDictGetD_ne_metadataError (v : PyVal) (k : String) (d : PyVal) :
    pyDictGetD v k d ≠ Except.error PyErr.metadataError := by
  cases v <;> simp [pyDictGetD]

theorem pyAttr_ok_inv {v : PyVal} {k : String} {x : PyVal}
    (h : pyAttr v k = Except.ok x) :
    ∃ m, v = PyVal.dict m ∧ dictHas m k = true ∧ x = dictGetD m k PyVal.none := by
  cases v with
  | dict m =>
    have h' : (if dictHas m k = true then Except.ok (dictGetD m k PyVal.none)
        else (Except.error PyErr.shapeError : Except PyErr PyVal)) = Except.ok x := h
    by_cases hk : dictHas m k = true
    · rw [if_pos hk] at h'
      injection h' with hx
      exact ⟨m, rfl, hk, hx.symm⟩
    · rw [if_neg hk] at h'
      exact absurd h' (by simp)
  | none => simp [pyAttr] at h
  | bool b => simp [pyAttr] at h
  | int n => simp [pyAttr] at h
  | str s => simp [pyAttr] at h
  | list l => simp [pyAttr] at h

theorem pyDictGetD_ok_inv {v : PyVal} {k : String} {d x : PyVal}
    (h : pyDictGetD v k d = Except.ok x) :
    ∃ m, v = PyVal.dict m ∧ x = dictGetD m k d := by
  cases v with
  | dict m =>
    unfold pyDictGetD at h
    injection h with hx
    exact ⟨m, rfl, hx.symm⟩
  | none => simp [pyDictGetD] at h
  | bool b => simp [pyDictGetD] at h
  | int n => simp [pyDictGetD] at h
  | str s => simp [pyDictGetD] at h
  | list l => simp [pyDictGetD] at h

/-- C4: `determine_keep_output` raises the contradiction error exactly when a
cell (whose metadata is a mapping) has no `init_cell` key but has a
`keep_output` key with falsy value while `"keep_output"` is simultaneously
present among the tags (clause 1); a cell with `keep_output = true` and the
same tag does not raise but keeps its output (clause 2); and the error is
surfaced unchanged to the caller by the per-cell processing rather than
resolved silently (clause 3). -/
theorem determine_keep_output_contradiction_iff :
    (∀ (cell : PyVal) (default : Option Bool) (s : Bool),
      determine_keep_output cell default s = Except.error PyErr.metadataError ↔
        ∃ c md, cell = PyVal.dict c ∧ dictHas c "metadata" = true ∧
          dictGetD c "metadata" PyVal.none = PyVal.dict md ∧
          dictHas md "init_cell" = false ∧
          dictHas md "keep_output" = true ∧
          pyBool (dictGetD md "keep_output" (PyVal.bool false)) = false ∧
          pyContains (dictGetD md "tags" (PyVal.list [])) "keep_output" = Except.ok true) ∧
    (∀ (c md : List (String × PyVal)) (default : Option Bool) (s : Bool),
      dictHas c "metadata" = true →
      dictGetD c "metadata" PyVal.none = PyVal.dict md →
      dictHas md "init_cell" = false →
      dictHas md "keep_output" = true →
      pyBool (dictGetD md "keep_output" (PyVal.bool false)) = true →
      pyContains (dictGetD md "tags" (PyVal.list [])) "keep_output" = Except.ok true →
      determine_keep_output (PyVal.dict c) default s = Except.ok (Option.some true)) ∧
    (∀ (keepCount : Bool) (maxSize : Int) (stripInit : Bool) (ko : Option Bool)
        (cks : List String) (cell : PyVal) (e : PyErr),
      determine_keep_output cell ko stripInit = Except.error e →
      processCell keepCount maxSize stripInit ko cks cell = Except.error e) := by
  refine ⟨?_, ?_, ?_⟩
  · intro cell default s
    constructor
    · intro h
      unfold determine_keep_output at h
      split at h
      · rename_i e heq
        injection h with he
        subst he
        exact absurd heq (pyContains_ne_metadataError _ _)
      · exact absurd h (by simp)
      · split at h
        · rename_i e heq
          injection h with he
          subst he
          exact absurd heq (pyAttr_ne_metadataError _ _)
        · rename_i md heq2
          split at h
          · rename_i e heq
            injection h with he
            subst he
            exact absurd heq (pyContains_ne_metadataError _ _)
          · split at h
            · rename_i e heq
              injection h with he
              subst he
              exact absurd heq (pyAttr_ne_metadataError _ _)
            · exact absurd h (by simp)
          · rename_i heq3
            split at h
            · rename_i e heq
              injection h with he
              subst he
              exact absurd heq (pyContains_ne_metadataError _ _)
            · rename_i hasKOmd heq4
              split at h
              · rename_i e heq
                injection h with he
                subst he
                exact absurd heq (pyDictGetD_ne_metadataError _ _ _)
              · rename_i kov heq5
                split at h
                · rename_i e heq
                  injection h with he
                  subst he
                  exact absurd heq (pyDictGetD_ne_metadataError _ _ _)
                · rename_i tags heq6
                  split at h
                  · rename_i e heq
                    injection h with he
                    subst he
                    exact absurd heq (pyContains_ne_metadataError _ _)
                  · rename_i hasTag heq7
                    split at h
                    · rename_i hcond
                      obtain ⟨c, rfl, hhas, hmdv⟩ := pyAttr_ok_inv heq2
                      obtain ⟨mm, hmddict, hkov⟩ := pyDictGetD_ok_inv heq5
                      subst hmddict
                      simp only [pyContains, Except.ok.injEq] at heq3 heq4
                      simp only [pyDictGetD, Except.ok.injEq] at heq6
                      simp only [Bool.and_eq_true, Bool.not_eq_true'] at hcond
                      refine ⟨c, mm, rfl, hhas, hmdv.symm, heq3, ?_, ?_, ?_⟩
                      · rw [heq4]
                        exact hcond.1.1
                      · rw [← hkov]
                        exact hcond.2
                      · rw [heq6, heq7, hcond.1.2]
                    · split at h
                      · exact absurd h (by simp)
                      · exact absurd h (by simp)
    · rintro ⟨c, md, rfl, h1, h2, h3, h4, h5, h6⟩
      have e1 : pyContains (PyVal.dict c) "metadata" = Except.ok true := by
        simp [pyContains, h1]
      have e2 : pyAttr (PyVal.dict c) "metadata" = Except.ok (PyVal.dict md) := by
        simp [pyAttr, h1, h2]
      have e3 : pyContains (PyVal.dict md) "init_cell" = Except.ok false := by
        simp [pyContains, h3]
      have e4 : pyContains (PyVal.dict md) "keep_output" = Except.ok true := by
        simp [pyContains, h4]
      have e5 : pyDictGetD (PyVal.dict md) "keep_output" (PyVal.bool false) =
          Except.ok (dictGetD md "keep_output" (PyVal.bool false)) := rfl
      have e6 : pyDictGetD (PyVal.dict md) "tags" (PyVal.list []) =
          Except.ok (dictGetD md "tags" (PyVal.list [])) := rfl
      unfold determine_keep_output
      simp [e1, e2, e3, e4, e5, e6, h6, h5]
  · intro c md default s h1 h2 h3 h4 h5 h6
    have e1 : pyContains (PyVal.dict c) "metadata" = Except.ok true := by
      simp [pyContains, h1]
    have e2 : pyAttr (PyVal.dict c) "metadata" = Except.ok (PyVal.dict md) := by
      simp [pyAttr, h1, h2]
    have e3 : pyContains (PyVal.dict md) "init_cell" = Except.ok false := by
      simp [pyContains, h3]
    have e4 : pyContains (PyVal.dict md) "keep_output" = Except.ok true := by
      simp [pyContains, h4]
    have e5 : pyDictGetD (PyVal.dict md) "keep_output" (PyVal.bool false) =
        Except.ok (dictGetD md "keep_output" (PyVal.bool false)) := rfl
    have e6 : pyDictGetD (PyVal.dict md) "tags" (PyVal.list []) =
        Except.ok (dictGetD md "tags" (PyVal.list [])) := rfl
    unfold determine_keep_output
    simp [e1, e2, e3, e4, e5, e6, h6, h5]
  · intro keepCount maxSize stripInit ko cks cell e h
    unfold processCell
    rw [h]

/-- Witness for C4: the contradiction-shaped cell
(`keep_output = false`, tag present) raises `MetadataError`; with
`keep_output = true` and the same tag the decision is "keep" without error;
and the per-cell processing surfaces the error unchanged. -/
theorem determine_keep_output_contradiction_iff_witness :
    determine_keep_output
        (PyVal.dict [("metadata", PyVal.dict
          [("keep_output", PyVal.bool false),
           ("tags", PyVal.list [PyVal.str "keep_output"])])])
        (Option.some true) false = Except.error PyErr.metadataError ∧
    determine_keep_output
        (PyVal.dict [("metadata", PyVal.dict
          [("keep_output", PyVal.bool true),
           ("tags", PyVal.list [PyVal.str "keep_output"])])])
        (Option.some false) false = Except.ok (Option.some true) ∧
    processCell false 0 false (Option.some false) []
        (PyVal.dict [("metadata", PyVal.dict
          [("keep_output", PyVal.bool false),
           ("tags", PyVal.list [PyVal.str "keep_output"])])]) =
      Except.error PyErr.metadataError :=
  ⟨(determine_keep_output_contradiction_iff.1 _ _ _).mpr
      ⟨[("metadata", PyVal.dict [("keep_output", PyVal.bool false),
          ("tags", PyVal.list [PyVal.str "keep_output"])])],
        [("keep_output", PyVal.bool false),
          ("tags", PyVal.list [PyVal.str "keep_output"])],
        rfl, rfl, rfl, rfl, rfl, rfl, rfl⟩,
    determine_keep_output_contradiction_iff.2.1
      [("metadata", PyVal.dict [("keep_output", PyVal.bool true),
          ("tags", PyVal.list [PyVal.str "keep_output"])])]
      [("keep_output", PyVal.bool true),
          ("tags", PyVal.list [PyVal.str "keep_output"])]
      (Option.some false) false rfl rfl rfl rfl rfl rfl,
    determine_keep_output_contradiction_iff.2.2 false 0 false (Option.some false) []
      (PyVal.dict [("metadata", PyVal.dict
        [("keep_output", PyVal.bool false),
          ("tags", PyVal.list [PyVal.str "keep_output"])])])
      PyErr.metadataError rfl⟩

theorem classifyKeys_invalid_cons {key : String} (ks : List String)
    (h : invalidExtraKey key = true) :
    classifyKeys (key :: ks) =
      ((classifyKeys ks).1, (classifyKeys ks).2.1,
        warnMsg key :: (classifyKeys ks).2.2) := by
  unfold invalidExtraKey at h
  cases hs : splitFirstDot key with
  | none => simp [classifyKeys, hs]
  | some p =>
    obtain ⟨hd, tl⟩ := p
    rw [hs] at h
    have h' : (!(hd == "metadata" || hd == "cell")) = true := h
    simp only [Bool.not_eq_true', Bool.or_eq_false_iff] at h'
    simp [classifyKeys, hs, h'.1, h'.2]

/-- C8: an `extra_keys` entry with no dot at all, or whose root segment is
neither `metadata` nor `cell`, never makes `strip_output` fail and causes no
removal: the document outcome with the entry present is identical to the
outcome without it, and whenever the preceding `keep_output`-resolution step
succeeds (so that the classification loop is reached, as in the Python code,
where the `stderr` write happens) exactly one additional warning line for the
key is emitted and processing continues normally over the remaining keys. -/
theorem strip_output_invalid_extra_key_skipped (nb : PyVal) (args : StripArgs)
    (key : String) (hinv : invalidExtraKey key = true) :
    (strip_output nb { args with extra_keys := key :: args.extra_keys }).1 =
      (strip_output nb args).1 ∧
    (∀ ko, resolveKeepOutput nb args.keep_output = Except.ok ko →
      (strip_output nb { args with extra_keys := key :: args.extra_keys }).2 =
        warnMsg key :: (strip_output nb args).2) := by
  have hck := classifyKeys_invalid_cons args.extra_keys hinv
  unfold strip_output
  cases hr : resolveKeepOutput nb args.keep_output with
  | error e =>
    constructor
    · simp [hr]
    · intro ko hko
      exact absurd hko (by simp)
  | ok ko' =>
    constructor
    · simp [hr, hck]
    · intro ko hko
      simp [hr, hck]

/-- Witness for C8: the dotless key `"bogus"` on a tiny notebook is skipped
with one warning and an unchanged result. -/
theorem strip_output_invalid_extra_key_skipped_witness :
    (strip_output
        (PyVal.dict [("nbformat", PyVal.int 4), ("metadata", PyVal.dict []),
          ("cells", PyVal.list [])])
        { keep_output := Option.some false, keep_count := false,
          extra_keys := ["bogus"] }).1 =
      (strip_output
        (PyVal.dict [("nbformat", PyVal.int 4), ("metadata", PyVal.dict []),
          ("cells", PyVal.list [])])
        { keep_output := Option.some false, keep_count := false }).1 ∧
    (strip_output
        (PyVal.dict [("nbformat", PyVal.int 4), ("metadata", PyVal.dict []),
          ("cells", PyVal.list [])])
        { keep_output := Option.some false, keep_count := false,
          extra_keys := ["bogus"] }).2 =
      warnMsg "bogus" ::
        (strip_output
          (PyVal.dict [("nbformat", PyVal.int 4), ("metadata", PyVal.dict []),
            ("cells", PyVal.list [])])
          { keep_output := Option.some false, keep_count := false }).2 :=
  ⟨(strip_output_invalid_extra_key_skipped
      (PyVal.dict [("nbformat", PyVal.int 4), ("metadata", PyVal.dict []),
        ("cells", PyVal.list [])])
      { keep_output := Option.some false, keep_count := false } "bogus" rfl).1,
    (strip_output_invalid_extra_key_skipped
      (PyVal.dict [("nbformat", PyVal.int 4), ("metadata", PyVal.dict []),
        ("cells", PyVal.list [])])
      { keep_output := Option.some false, keep_count := false } "bogus" rfl).2
      (Option.some false) rfl⟩

theorem pyGetItem_dictSet_self (m : List (String × PyVal)) (k : String) (v : PyVal) :
    pyGetItem (PyVal.dict (dictSet m k v)) k = Except.ok v := by
  simp [pyGetItem, dictHas_dictSet_self, dictGetD_dictSet_self]

theorem pyGetItem_dictSet_ne (m : List (String × PyVal)) {k k' : String} (v : PyVal)
    (h : k ≠ k') : pyGetItem (PyVal.dict (dictSet m k v)) k' = pyGetItem (PyVal.dict m) k' := by
  show (if dictHas (dictSet m k v) k' = true
      then Except.ok (dictGetD (dictSet m k v) k' PyVal.none)
      else (Except.error PyErr.shapeError : Except PyErr PyVal)) =
    (if dictHas m k' = true then Except.ok (dictGetD m k' PyVal.none)
      else Except.error PyErr.shapeError)
  rw [dictHas_dictSet_ne m v h, dictGetD_dictSet_ne m v PyVal.none h]

theorem stripCellCounts_nil_outputs {kc : Bool} {m : List (String × PyVal)}
    {cell' : PyVal}
    (h : stripCellCounts kc [] (PyVal.dict m) = Except.ok cell') :
    pyGetItem cell' "outputs" = pyGetItem (PyVal.dict m) "outputs" := by
  unfold stripCellCounts at h
  cases h1 : (dictHas m "prompt_number" && !kc) with
  | true =>
    simp only [pyContains, h1, if_true, pySetItem] at h
    cases h2 : (dictHas (dictSet m "prompt_number" PyVal.none) "execution_count" && !kc) with
    | true =>
      simp only [pyContains, h2, if_true, pySetItem, List.foldl_nil] at h
      injection h with h
      subst h
      rw [pyGetItem_dictSet_ne _ _ (by decide), pyGetItem_dictSet_ne _ _ (by decide)]
    | false =>
      simp only [pyContains, h2, Bool.false_eq_true, if_false, List.foldl_nil] at h
      injection h with h
      subst h
      rw [pyGetItem_dictSet_ne _ _ (by decide)]
  | false =>
    simp only [pyContains, h1, Bool.false_eq_true, if_false] at h
    cases h2 : (dictHas m "execution_count" && !kc) with
    | true =>
      simp only [pyContains, h2, if_true, pySetItem, List.foldl_nil] at h
      injection h with h
      subst h
      rw [pyGetItem_dictSet_ne _ _ (by decide)]
    | false =>
      simp only [pyContains, h2, Bool.false_eq_true, if_false, List.foldl_nil] at h
      injection h with h
      subst h
      rfl

/-- Counterexample for C2: with the default `max_size = 0` and effective
`keep_output = false`, the output `{"text": ""}` has computed size 0, so it
survives stripping — refuting the claim's "with max_size=0 (the default) no
outputs survive". -/
theorem strip_output_size_zero_output_survives :
    strip_output
        (PyVal.dict [("nbformat", PyVal.int 4), ("metadata", PyVal.dict []),
          ("cells", PyVal.list [PyVal.dict [("outputs", PyVal.list
            [PyVal.dict [("text", PyVal.str "")]])]])])
        { keep_output := Option.some false, keep_count := false } =
      (Except.ok (PyVal.dict [("nbformat", PyVal.int 4), ("metadata", PyVal.dict []),
        ("cells", PyVal.list [PyVal.dict [("outputs", PyVal.list
          [PyVal.dict [("text", PyVal.str "")]])]])]), []) ∧
    get_size (PyVal.dict [("text", PyVal.str "")]) = 0 :=
  ⟨rfl, rfl⟩

/-- C2 (amended): when the per-cell decision is to strip outputs and no
`cell.*` extra key is configured, the surviving outputs are exactly
`filterBySize max_size outs` — an output is retained iff its computed size is
≤ `max_size` — and they are additionally nulled elementwise when `keep_count`
is false; in particular with the default `max_size = 0` exactly the outputs
of computed size 0 survive (rather than none, which the counterexample
refutes). -/
theorem processCell_strip_retains_iff_small (keepCount : Bool) (maxSize : Int)
    (stripInit : Bool) (ko : Option Bool) (c : List (String × PyVal))
    (outs : List PyVal) (kv : Option Bool) (cell' : PyVal)
    (hhas : dictHas c "outputs" = true)
    (houts : dictGetD c "outputs" PyVal.none = PyVal.list outs)
    (hdet : determine_keep_output (PyVal.dict c) ko stripInit = Except.ok kv)
    (hkv : truthy kv = false)
    (hproc : processCell keepCount maxSize stripInit ko [] (PyVal.dict c) =
      Except.ok cell') :
    (∃ outs', pyGetItem cell' "outputs" = Except.ok (PyVal.list outs') ∧
      (if keepCount then Except.ok (filterBySize maxSize outs)
       else pyMapM nullOutputCount (filterBySize maxSize outs)) = Except.ok outs') ∧
    (keepCount = true →
      pyGetItem cell' "outputs" = Except.ok (PyVal.list (filterBySize maxSize outs))) ∧
    (maxSize = 0 →
      filterBySize 0 outs = outs.filter (fun o => decide (get_size o = 0))) := by
  have e0 : pyContains (PyVal.dict c) "outputs" = Except.ok true := by
    simp [pyContains, hhas]
  have e1 : pyGetItem (PyVal.dict c) "outputs" = Except.ok (PyVal.list outs) := by
    simp [pyGetItem, hhas, houts]
  have hsize : maxSize = 0 →
      filterBySize 0 outs = outs.filter (fun o => decide (get_size o = 0)) := by
    intro _
    unfold filterBySize
    apply List.filter_congr
    intro o _
    exact decide_eq_decide.mpr (by omega)
  unfold processCell at hproc
  rw [hdet] at hproc
  simp only [e0, if_true, e1, hkv, hhas, Bool.not_false, pyIterate, pySetItem] at hproc
  cases keepCount with
  | true =>
    simp only [Bool.not_true, Bool.false_eq_true, if_false] at hproc
    have hout := stripCellCounts_nil_outputs hproc
    rw [pyGetItem_dictSet_self] at hout
    exact ⟨⟨filterBySize maxSize outs, hout, rfl⟩, fun _ => hout, hsize⟩
  | false =>
    cases hmap : pyMapM nullOutputCount (filterBySize maxSize outs) with
    | error e =>
      simp only [Bool.not_false, if_true, nullOutputCounts, pyIterate, hmap] at hproc
      exact absurd hproc (by simp)
    | ok items' =>
      simp only [Bool.not_false, if_true, nullOutputCounts, pyIterate, hmap] at hproc
      have hout := stripCellCounts_nil_outputs hproc
      rw [pyGetItem_dictSet_self] at hout
      exact ⟨⟨items', hout, by simp [hmap]⟩, by simp, hsize⟩

/-- Witness for C2 (amended): with `max_size = 0`, of the two outputs
`{"text": ""}` (size 0) and `{"text": "xy"}` (size 2), exactly the size-0 one
survives. -/
theorem processCell_strip_retains_iff_small_witness :
    (∃ outs', pyGetItem
        (PyVal.dict [("outputs", PyVal.list [PyVal.dict [("text", PyVal.str "")]])])
        "outputs" = Except.ok (PyVal.list outs') ∧
      (if true then Except.ok (filterBySize 0
          [PyVal.dict [("text", PyVal.str "")], PyVal.dict [("text", PyVal.str "xy")]])
       else pyMapM nullOutputCount (filterBySize 0
          [PyVal.dict [("text", PyVal.str "")], PyVal.dict [("text", PyVal.str "xy")]])) =
        Except.ok outs') ∧
    (true = true → pyGetItem
        (PyVal.dict [("outputs", PyVal.list [PyVal.dict [("text", PyVal.str "")]])])
        "outputs" =
      Except.ok (PyVal.list (filterBySize 0
        [PyVal.dict [("text", PyVal.str "")], PyVal.dict [("text", PyVal.str "xy")]]))) ∧
    ((0 : Int) = 0 →
      filterBySize 0
          [PyVal.dict [("text", PyVal.str "")], PyVal.dict [("text", PyVal.str "xy")]] =
        [PyVal.dict [("text", PyVal.str "")],
          PyVal.dict [("text", PyVal.str "xy")]].filter
            (fun o => decide (get_size o = 0))) :=
  processCell_strip_retains_iff_small true 0 false (Option.some false)
    [("outputs", PyVal.list
      [PyVal.dict [("text", PyVal.str "")], PyVal.dict [("text", PyVal.str "xy")]])]
    [PyVal.dict [("text", PyVal.str "")], PyVal.dict [("text", PyVal.str "xy")]]
    (Option.some false)
    (PyVal.dict [("outputs", PyVal.list [PyVal.dict [("text", PyVal.str "")]])])
    rfl rfl rfl rfl rfl

theorem dictGetD_default_irrelevant {m : List (String × PyVal)} {k : String}
    (h : dictHas m k = true) (d₁ d₂ : PyVal) :
    dictGetD m k d₁ = dictGetD m k d₂ := by
  induction m with
  | nil => simp [dictHas] at h
  | cons kv rest ih =>
    obtain ⟨k', v'⟩ := kv
    by_cases hk : (k' == k) = true
    · simp [dictGetD, hk]
    · simp only [dictHas, hk, Bool.false_or] at h
      simp [dictGetD, hk, ih h]

theorem dictGetD_absent {m : List (String × PyVal)} {k : String}
    (h : dictHas m k = false) (d : PyVal) : dictGetD m k d = d := by
  induction m with
  | nil => simp [dictGetD]
  | cons kv rest ih =>
    obtain ⟨k', v'⟩ := kv
    simp only [dictHas, Bool.or_eq_false_iff] at h
    simp [dictGetD, h.1, ih h.2]

theorem pop_recursive_non_dict {v : PyVal} (hv : ∀ m, v ≠ PyVal.dict m)
    (k : String) (d : PyVal) : pop_recursive v k d = (d, v) := by
  rw [pop_recursive_eq]
  cases v with
  | dict m => exact absurd rfl (hv m)
  | none => rfl
  | bool b => rfl
  | int n => rfl
  | str s => rfl
  | list l => rfl

theorem foldl_pop_non_dict (ks : List String) {v : PyVal}
    (hv : ∀ m, v ≠ PyVal.dict m) :
    List.foldl (fun c k => (pop_recursive c k PyVal.none).2) v ks = v := by
  induction ks with
  | nil => rfl
  | cons k ks ih =>
    show List.foldl _ (pop_recursive v k PyVal.none).2 ks = v
    rw [pop_recursive_non_dict hv]
    exact ih

theorem pop_recursive_dict_dict (x : List (String × PyVal)) (k : String) (d : PyVal) :
    ∃ x', (pop_recursive (PyVal.dict x) k d).2 = PyVal.dict x' := by
  rw [pop_recursive_eq]
  by_cases hk : dictHas x k = true
  · exact ⟨dictErase x k, by simp [hk]⟩
  · simp only [hk, Bool.false_eq_true, if_false]
    cases hs : splitFirstDot k with
    | none => exact ⟨x, rfl⟩
    | some p =>
      obtain ⟨hd, tl⟩ := p
      by_cases hh : dictHas x hd = true
      · exact ⟨dictSet x hd (pop_recursive (dictGetD x hd PyVal.none) tl d).2, by simp [hh]⟩
      · exact ⟨x, by simp [hh]⟩

theorem nullOutputCount_nulled {o o' : PyVal}
    (h : nullOutputCount o = Except.ok o') : outputNulled o' = true := by
  cases o with
  | dict m =>
    unfold nullOutputCount at h
    cases hq : dictHas m "execution_count" with
    | true =>
      simp only [pyContains, hq, if_true, pySetItem] at h
      injection h with ho
      subst ho
      simp [outputNulled, dictHas_dictSet_self, dictGetD_dictSet_self, isNoneV]
    | false =>
      simp only [pyContains, hq, Bool.false_eq_true, if_false] at h
      injection h with ho
      subst ho
      simp [outputNulled, hq]
  | str s =>
    unfold nullOutputCount at h
    cases hq : charsInfix "execution_count".data s.data with
    | true => simp [pyContains, hq, pySetItem] at h
    | false =>
      simp only [pyContains, hq, Bool.false_eq_true, if_false] at h
      injection h with ho
      subst ho
      rfl
  | list l =>
    unfold nullOutputCount at h
    cases hq : l.any (fun v => match v with | PyVal.str t => t == "execution_count" | _ => false) with
    | true => simp [pyContains, hq, pySetItem] at h
    | false =>
      simp only [pyContains, hq, Bool.false_eq_true, if_false] at h
      injection h with ho
      subst ho
      rfl
  | none => simp [nullOutputCount, pyContains] at h
  | bool b => simp [nullOutputCount, pyContains] at h
  | int n => simp [nullOutputCount, pyContains] at h

theorem pyMapM_ok_mem {f : PyVal → Except PyErr PyVal} :
    ∀ {l l' : List PyVal}, pyMapM f l = Except.ok l' →
      ∀ y ∈ l', ∃ x ∈ l, f x = Except.ok y := by
  intro l
  induction l with
  | nil =>
    intro l' h y hy
    unfold pyMapM at h
    injection h with h
    subst h
    simp at hy
  | cons x xs ih =>
    intro l' h y hy
    unfold pyMapM at h
    cases hf : f x with
    | error e => rw [hf] at h; exact absurd h (by simp)
    | ok y0 =>
      rw [hf] at h
      cases hrest : pyMapM f xs with
      | error e => rw [hrest] at h; exact absurd h (by simp)
      | ok ys =>
        rw [hrest] at h
        injection h with h
        subst h
        rcases List.mem_cons.mp hy with hy0 | hys
        · subst hy0
          exact ⟨x, List.mem_cons_self x xs, hf⟩
        · obtain ⟨x', hx', hfx'⟩ := ih hrest y hys
          exact ⟨x', List.mem_cons_of_mem x hx', hfx'⟩

theorem nullOutputCounts_all_nulled {x y : PyVal}
    (h : nullOutputCounts x = Except.ok y) :
    ∀ os, y = PyVal.list os → os.all outputNulled = true := by
  intro os hy
  unfold nullOutputCounts at h
  cases x with
  | list l =>
    simp only [pyIterate] at h
    cases hm : pyMapM nullOutputCount l with
    | error e => rw [hm] at h; exact absurd h (by simp)
    | ok items' =>
      rw [hm] at h
      injection h with h
      rw [← h] at hy
      injection hy with hy
      subst hy
      rw [List.all_eq_true]
      intro o' ho'
      obtain ⟨o, _, hno⟩ := pyMapM_ok_mem hm o' ho'
      exact nullOutputCount_nulled hno
  | str s =>
    simp only [pyIterate] at h
    cases hm : pyMapM nullOutputCount (s.data.map (fun c => PyVal.str (String.mk [c]))) with
    | error e => rw [hm] at h; exact absurd h (by simp)
    | ok items' =>
      rw [hm] at h
      injection h with h
      rw [← h] at hy
      exact absurd hy (by simp)
  | dict m =>
    simp only [pyIterate] at h
    cases hm : pyMapM nullOutputCount (m.map (fun kv => PyVal.str kv.1)) with
    | error e => rw [hm] at h; exact absurd h (by simp)
    | ok items' =>
      rw [hm] at h
      injection h with h
      rw [← h] at hy
      exact absurd hy (by simp)
  | none => simp [pyIterate] at h
  | bool b => simp [pyIterate] at h
  | int n => simp [pyIterate] at h

theorem pyFilter_ok_mem {p : PyVal → Except PyErr Bool} :
    ∀ {l l' : List PyVal}, pyFilter p l = Except.ok l' → ∀ x ∈ l', x ∈ l := by
  intro l
  induction l with
  | nil =>
    intro l' h x hx
    unfold pyFilter at h
    injection h with h
    subst h
    simp at hx
  | cons a as ih =>
    intro l' h x hx
    unfold pyFilter at h
    cases hp : p a with
    | error e => rw [hp] at h; exact absurd h (by simp)
    | ok b =>
      rw [hp] at h
      cases b with
      | true =>
        cases hrest : pyFilter p as with
        | error e => rw [hrest] at h; exact absurd h (by simp)
        | ok r =>
          rw [hrest] at h
          injection h with h
          subst h
          rcases List.mem_cons.mp hx with hx0 | hxr
          · exact List.mem_cons.mpr (Or.inl hx0)
          · exact List.mem_cons_of_mem a (ih hrest x hxr)
      | false => exact List.mem_cons_of_mem a (ih h x hx)

theorem applyConditionals_ok_mem :
    ∀ (conds : List (PyVal → Except PyErr Bool)) {l l' : List PyVal},
      applyConditionals conds l = Except.ok l' → ∀ x ∈ l', x ∈ l := by
  intro conds
  induction conds with
  | nil =>
    intro l l' h x hx
    unfold applyConditionals at h
    injection h with h
    subst h
    exact hx
  | cons p ps ih =>
    intro l l' h x hx
    unfold applyConditionals at h
    cases hf : pyFilter p l with
    | error e => rw [hf] at h; exact absurd h (by simp)
    | ok l1 =>
      rw [hf] at h
      exact pyFilter_ok_mem hf x (ih h x hx)

theorem isNoneV_eq {v : PyVal} (h : isNoneV v = true) : v = PyVal.none := by
  cases v with
  | none => rfl
  | bool b => simp [isNoneV] at h
  | int n => simp [isNoneV] at h
  | str s => simp [isNoneV] at h
  | list l => simp [isNoneV] at h
  | dict m => simp [isNoneV] at h

theorem cellCountsNulled_dict (m : List (String × PyVal)) :
    cellCountsNulled (PyVal.dict m) = true ↔
      ((!dictHas m "prompt_number" ||
          isNoneV (dictGetD m "prompt_number" (PyVal.bool true))) = true ∧
       (!dictHas m "execution_count" ||
          isNoneV (dictGetD m "execution_count" (PyVal.bool true))) = true ∧
       (∀ os, dictGetD m "outputs" (PyVal.list []) = PyVal.list os →
          os.all outputNulled = true)) := by
  unfold cellCountsNulled
  constructor
  · intro h
    simp only [Bool.and_eq_true] at h
    refine ⟨h.1.1, h.1.2, ?_⟩
    intro os hos
    have h2 := h.2
    rw [hos] at h2
    exact h2
  · intro ⟨h1, h2, h3⟩
    simp only [Bool.and_eq_true]
    refine ⟨⟨h1, h2⟩, ?_⟩
    cases hv : dictGetD m "outputs" (PyVal.list []) with
    | list os => exact h3 os hv
    | none => rfl
    | bool b => rfl
    | int n => rfl
    | str s => rfl
    | dict md => rfl

/-- Removing a key path never un-nulls a nulled cell: the nulled-counts
predicate and key uniqueness are preserved by one `pop_recursive`. -/
theorem pop_preserves_nulled (v : PyVal) (k : String)
    (hn : topNodup v = true) (hc : cellCountsNulled v = true) :
    topNodup (pop_recursive v k PyVal.none).2 = true ∧
    cellCountsNulled (pop_recursive v k PyVal.none).2 = true := by
  cases v with
  | none => rw [pop_recursive_non_dict (by intro m h; cases h)]; exact ⟨hn, hc⟩
  | bool b => rw [pop_recursive_non_dict (by intro m h; cases h)]; exact ⟨hn, hc⟩
  | int n => rw [pop_recursive_non_dict (by intro m h; cases h)]; exact ⟨hn, hc⟩
  | str s => rw [pop_recursive_non_dict (by intro m h; cases h)]; exact ⟨hn, hc⟩
  | list l => rw [pop_recursive_non_dict (by intro m h; cases h)]; exact ⟨hn, hc⟩
  | dict m =>
    have hn' : keysNodup m = true := hn
    rw [pop_recursive_eq]
    by_cases hk : dictHas m k = true
    · simp only [hk, if_true]
      constructor
      · exact keysNodup_dictErase m k hn'
      · rw [cellCountsNulled_dict] at hc ⊢
        obtain ⟨h1, h2, h3⟩ := hc
        refine ⟨?_, ?_, ?_⟩
        · by_cases hkp : k = "prompt_number"
          · subst hkp
            rw [dictHas_dictErase_self hn']
            rfl
          · rw [dictHas_dictErase_ne m hkp,
              dictGetD_dictErase_ne m (PyVal.bool true) hkp]
            exact h1
        · by_cases hke : k = "execution_count"
          · subst hke
            rw [dictHas_dictErase_self hn']
            rfl
          · rw [dictHas_dictErase_ne m hke,
              dictGetD_dictErase_ne m (PyVal.bool true) hke]
            exact h2
        · intro os hos
          by_cases hko : k = "outputs"
          · subst hko
            rw [dictGetD_absent (dictHas_dictErase_self hn') (PyVal.list [])] at hos
            injection hos with hos
            subst hos
            rfl
          · rw [dictGetD_dictErase_ne m (PyVal.list []) hko] at hos
            exact h3 os hos
    · simp only [hk, Bool.false_eq_true, if_false]
      cases hs : splitFirstDot k with
      | none => exact ⟨hn, hc⟩
      | some p =>
        obtain ⟨hd, tl⟩ := p
        by_cases hh : dictHas m hd = true
        · simp only [hh, if_true]
          rw [cellCountsNulled_dict] at hc
          obtain ⟨h1, h2, h3⟩ := hc
          by_cases hpd : hd = "prompt_number"
          · subst hpd
            have hv1 : isNoneV (dictGetD m "prompt_number" (PyVal.bool true)) = true := by
              rcases Bool.or_eq_true_iff.mp h1 with hfalse | htrue
              · rw [hh] at hfalse; simp at hfalse
              · exact htrue
            have hval : dictGetD m "prompt_number" PyVal.none = PyVal.none := by
              rw [dictGetD_default_irrelevant hh PyVal.none (PyVal.bool true)]
              exact isNoneV_eq hv1
            rw [hval, pop_recursive_non_dict (by intro m' h'; cases h') tl PyVal.none]
            have hset : dictSet m "prompt_number" PyVal.none = m := by
              conv_lhs => rw [← hval]
              exact dictSet_getD_self PyVal.none hh
            rw [hset]
            refine ⟨hn, ?_⟩
            rw [cellCountsNulled_dict]
            exact ⟨h1, h2, h3⟩
          · by_cases hed : hd = "execution_count"
            · subst hed
              have hv1 : isNoneV (dictGetD m "execution_count" (PyVal.bool true)) = true := by
                rcases Bool.or_eq_true_iff.mp h2 with hfalse | htrue
                · rw [hh] at hfalse; simp at hfalse
                · exact htrue
              have hval : dictGetD m "execution_count" PyVal.none = PyVal.none := by
                rw [dictGetD_default_irrelevant hh PyVal.none (PyVal.bool true)]
                exact isNoneV_eq hv1
              rw [hval, pop_recursive_non_dict (by intro m' h'; cases h') tl PyVal.none]
              have hset : dictSet m "execution_count" PyVal.none = m := by
                conv_lhs => rw [← hval]
                exact dictSet_getD_self PyVal.none hh
              rw [hset]
              refine ⟨hn, ?_⟩
              rw [cellCountsNulled_dict]
              exact ⟨h1, h2, h3⟩
            · by_cases hod : hd = "outputs"
              · subst hod
                cases hv : dictGetD m "outputs" PyVal.none with
                | dict dm =>
                  obtain ⟨x', hx'⟩ := pop_recursive_dict_dict dm tl PyVal.none
                  rw [hx']
                  constructor
                  · exact keysNodup_dictSet m "outputs" (PyVal.dict x') hn'
                  · rw [cellCountsNulled_dict]
                    refine ⟨?_, ?_, ?_⟩
                    · rw [dictHas_dictSet_ne m (PyVal.dict x') (by decide),
                        dictGetD_dictSet_ne m (PyVal.dict x') (PyVal.bool true) (by decide)]
                      exact h1
                    · rw [dictHas_dictSet_ne m (PyVal.dict x') (by decide),
                        dictGetD_dictSet_ne m (PyVal.dict x') (PyVal.bool true) (by decide)]
                      exact h2
                    · intro os hos
                      rw [dictGetD_dictSet_self] at hos
                      cases hos
                | list os0 =>
                  rw [pop_recursive_non_dict (by intro m' h'; cases h') tl PyVal.none]
                  have hset : dictSet m "outputs" (PyVal.list os0) = m := by
                    conv_lhs => rw [show PyVal.list os0 = dictGetD m "outputs" PyVal.none from hv.symm]
                    exact dictSet_getD_self PyVal.none hh
                  rw [hset]
                  refine ⟨hn, ?_⟩
                  rw [cellCountsNulled_dict]
                  exact ⟨h1, h2, h3⟩
                | none =>
                  rw [pop_recursive_non_dict (by intro m' h'; cases h') tl PyVal.none]
                  have hset : dictSet m "outputs" PyVal.none = m := by
                    conv_lhs => rw [show PyVal.none = dictGetD m "outputs" PyVal.none from hv.symm]
                    exact dictSet_getD_self PyVal.none hh
                  rw [hset]
                  refine ⟨hn, ?_⟩
                  rw [cellCountsNulled_dict]
                  exact ⟨h1, h2, h3⟩
                | bool b =>
                  rw [pop_recursive_non_dict (by intro m' h'; cases h') tl PyVal.none]
                  have hset : dictSet m "outputs" (PyVal.bool b) = m := by
                    conv_lhs => rw [show PyVal.bool b = dictGetD m "outputs" PyVal.none from hv.symm]
                    exact dictSet_getD_self PyVal.none hh
                  rw [hset]
                  refine ⟨hn, ?_⟩
                  rw [cellCountsNulled_dict]
                  exact ⟨h1, h2, h3⟩
                | int n =>
                  rw [pop_recursive_non_dict (by intro m' h'; cases h') tl PyVal.none]
                  have hset : dictSet m "outputs" (PyVal.int n) = m := by
                    conv_lhs => rw [show PyVal.int n = dictGetD m "outputs" PyVal.none from hv.symm]
                    exact dictSet_getD_self PyVal.none hh
                  rw [hset]
                  refine ⟨hn, ?_⟩
                  rw [cellCountsNulled_dict]
                  exact ⟨h1, h2, h3⟩
                | str s =>
                  rw [pop_recursive_non_dict (by intro m' h'; cases h') tl PyVal.none]
                  have hset : dictSet m "outputs" (PyVal.str s) = m := by
                    conv_lhs => rw [show PyVal.str s = dictGetD m "outputs" PyVal.none from hv.symm]
                    exact dictSet_getD_self PyVal.none hh
                  rw [hset]
                  refine ⟨hn, ?_⟩
                  rw [cellCountsNulled_dict]
                  exact ⟨h1, h2, h3⟩
              · constructor
                · exact keysNodup_dictSet m hd _ hn'
                · rw [cellCountsNulled_dict]
                  refine ⟨?_, ?_, ?_⟩
                  · rw [dictHas_dictSet_ne m _ hpd,
                      dictGetD_dictSet_ne m _ (PyVal.bool true) hpd]
                    exact h1
                  · rw [dictHas_dictSet_ne m _ hed,
                      dictGetD_dictSet_ne m _ (PyVal.bool true) hed]
                    exact h2
                  · intro os hos
                    rw [dictGetD_dictSet_ne m _ (PyVal.list []) hod] at hos
                    exact h3 os hos
        · simp only [hh, Bool.false_eq_true, if_false]
          exact ⟨hn, hc⟩

theorem foldl_pop_preserves_nulled (ks : List String) :
    ∀ (v : PyVal), topNodup v = true → cellCountsNulled v = true →
      topNodup (List.foldl (fun c k => (pop_recursive c k PyVal.none).2) v ks) = true ∧
      cellCountsNulled (List.foldl (fun c k => (pop_recursive c k PyVal.none).2) v ks) = true := by
  induction ks with
  | nil => intro v hn hc; exact ⟨hn, hc⟩
  | cons k ks ih =>
    intro v hn hc
    have h1 := pop_preserves_nulled v k hn hc
    exact ih _ h1.1 h1.2

theorem stripCellCounts_non_dict {kc : Bool} {cks : List String} {cell cell' : PyVal}
    (hv : ∀ m, cell ≠ PyVal.dict m)
    (h : stripCellCounts kc cks cell = Except.ok cell') : cell' = cell := by
  cases cell with
  | dict m => exact absurd rfl (hv m)
  | none => simp [stripCellCounts, pyContains] at h
  | bool b => simp [stripCellCounts, pyContains] at h
  | int n => simp [stripCellCounts, pyContains] at h
  | str s =>
    unfold stripCellCounts at h
    cases h1 : (charsInfix "prompt_number".data s.data && !kc) with
    | true => simp [pyContains, h1, pySetItem] at h
    | false =>
      simp only [pyContains, h1, Bool.false_eq_true, if_false] at h
      cases h2 : (charsInfix "execution_count".data s.data && !kc) with
      | true => simp [pyContains, h2, pySetItem] at h
      | false =>
        simp only [pyContains, h2, Bool.false_eq_true, if_false] at h
        rw [foldl_pop_non_dict cks (by intro m hm; cases hm)] at h
        injection h with h
        exact h.symm
  | list l =>
    unfold stripCellCounts at h
    cases h1 : (l.any (fun v => match v with
        | PyVal.str t => t == "prompt_number" | _ => false) && !kc) with
    | true => simp [pyContains, h1, pySetItem] at h
    | false =>
      simp only [pyContains, h1, Bool.false_eq_true, if_false] at h
      cases h2 : (l.any (fun v => match v with
          | PyVal.str t => t == "execution_count" | _ => false) && !kc) with
      | true => simp [pyContains, h2, pySetItem] at h
      | false =>
        simp only [pyContains, h2, Bool.false_eq_true, if_false] at h
        rw [foldl_pop_non_dict cks (by intro m hm; cases hm)] at h
        injection h with h
        exact h.symm

theorem stripCellCounts_keepCount_true {cks : List String}
    {m : List (String × PyVal)} {cell' : PyVal}
    (h : stripCellCounts true cks (PyVal.dict m) = Except.ok cell') :
    cell' = cks.foldl (fun c k => (pop_recursive c k PyVal.none).2) (PyVal.dict m) := by
  unfold stripCellCounts at h
  simp only [pyContains, Bool.not_true, Bool.and_false, Bool.false_eq_true, if_false] at h
  injection h with h
  exact h.symm

theorem stripCellCounts_counts_nulled {cks : List String}
    {m : List (String × PyVal)} {cell' : PyVal}
    (hn : keysNodup m = true)
    (houts : ∀ os, dictGetD m "outputs" (PyVal.list []) = PyVal.list os →
      os.all outputNulled = true)
    (h : stripCellCounts false cks (PyVal.dict m) = Except.ok cell') :
    cellCountsNulled cell' = true := by
  have ne_ec_pn : "execution_count" ≠ "prompt_number" := by decide
  have ne_ec_out : "execution_count" ≠ "outputs" := by decide
  have ne_pn_ec : "prompt_number" ≠ "execution_count" := by decide
  have ne_pn_out : "prompt_number" ≠ "outputs" := by decide
  unfold stripCellCounts at h
  simp only [pyContains, Bool.not_false, Bool.and_true, pySetItem] at h
  cases h1 : dictHas m "prompt_number" with
  | true =>
    simp only [h1, if_true] at h
    cases h2 : dictHas (dictSet m "prompt_number" PyVal.none) "execution_count" with
    | true =>
      simp only [h2, if_true] at h
      injection h with h
      subst h
      refine (foldl_pop_preserves_nulled cks _ ?_ ?_).2
      · exact keysNodup_dictSet _ _ _ (keysNodup_dictSet _ _ _ hn)
      · rw [cellCountsNulled_dict]
        refine ⟨?_, ?_, ?_⟩
        · rw [dictHas_dictSet_ne _ _ ne_ec_pn, dictGetD_dictSet_ne _ _ _ ne_ec_pn,
            dictHas_dictSet_self, dictGetD_dictSet_self]
          rfl
        · rw [dictHas_dictSet_self, dictGetD_dictSet_self]
          rfl
        · intro os hos
          rw [dictGetD_dictSet_ne _ _ _ ne_ec_out,
            dictGetD_dictSet_ne _ _ _ ne_pn_out] at hos
          exact houts os hos
    | false =>
      simp only [h2, Bool.false_eq_true, if_false] at h
      injection h with h
      subst h
      refine (foldl_pop_preserves_nulled cks _ ?_ ?_).2
      · exact keysNodup_dictSet _ _ _ hn
      · rw [cellCountsNulled_dict]
        refine ⟨?_, ?_, ?_⟩
        · rw [dictHas_dictSet_self, dictGetD_dictSet_self]
          rfl
        · rw [h2]
          rfl
        · intro os hos
          rw [dictGetD_dictSet_ne _ _ _ ne_pn_out] at hos
          exact houts os hos
  | false =>
    simp only [h1, Bool.false_eq_true, if_false] at h
    cases h2 : dictHas m "execution_count" with
    | true =>
      simp only [h2, if_true] at h
      injection h with h
      subst h
      refine (foldl_pop_preserves_nulled cks _ ?_ ?_).2
      · exact keysNodup_dictSet _ _ _ hn
      · rw [cellCountsNulled_dict]
        refine ⟨?_, ?_, ?_⟩
        · rw [dictHas_dictSet_ne _ _ ne_ec_pn, dictGetD_dictSet_ne _ _ _ ne_ec_pn, h1]
          rfl
        · rw [dictHas_dictSet_self, dictGetD_dictSet_self]
          rfl
        · intro os hos
          rw [dictGetD_dictSet_ne _ _ _ ne_ec_out] at hos
          exact houts os hos
    | false =>
      simp only [h2, Bool.false_eq_true, if_false] at h
      injection h with h
      subst h
      refine (foldl_pop_preserves_nulled cks _ ?_ ?_).2
      · exact hn
      · rw [cellCountsNulled_dict]
        refine ⟨?_, ?_, ?_⟩
        · rw [h1]
          rfl
        · rw [h2]
          rfl
        · exact houts

theorem processCell_non_dict {kc : Bool} {ms : Int} {si : Bool} {ko : Option Bool}
    {cks : List String} {cell cell' : PyVal}
    (hv : ∀ m, cell ≠ PyVal.dict m)
    (hp : processCell kc ms si ko cks cell = Except.ok cell') : cell' = cell := by
  cases cell with
  | dict m => exact absurd rfl (hv m)
  | none => simp [processCell, determine_keep_output, pyContains] at hp
  | bool b => simp [processCell, determine_keep_output, pyContains] at hp
  | int n => simp [processCell, determine_keep_output, pyContains] at hp
  | str s =>
    unfold processCell at hp
    cases hdet : determine_keep_output (PyVal.str s) ko si with
    | error e => rw [hdet] at hp; exact absurd hp (by simp)
    | ok kv =>
      simp only [hdet] at hp
      cases ho : charsInfix "outputs".data s.data with
      | true => simp [pyContains, ho, pyGetItem] at hp
      | false =>
        simp only [pyContains, ho, Bool.false_eq_true, if_false] at hp
        exact stripCellCounts_non_dict (by intro m hm; cases hm) hp
  | list l =>
    unfold processCell at hp
    cases hdet : determine_keep_output (PyVal.list l) ko si with
    | error e => rw [hdet] at hp; exact absurd hp (by simp)
    | ok kv =>
      simp only [hdet] at hp
      cases ho : l.any (fun v => match v with
          | PyVal.str t => t == "outputs" | _ => false) with
      | true => simp [pyContains, ho, pyGetItem] at hp
      | false =>
        simp only [pyContains, ho, Bool.false_eq_true, if_false] at hp
        exact stripCellCounts_non_dict (by intro m hm; cases hm) hp

/-- With `keep_count = false`, a successfully processed cell has null counters
and only nulled retained outputs. -/
theorem processCell_counts_nulled {ms : Int} {si : Bool} {ko : Option Bool}
    {cks : List String} {cell cell' : PyVal}
    (hn : topNodup cell = true)
    (hp : processCell false ms si ko cks cell = Except.ok cell') :
    cellCountsNulled cell' = true := by
  cases cell with
  | none => rw [processCell_non_dict (by intro m hm; cases hm) hp]; rfl
  | bool b => rw [processCell_non_dict (by intro m hm; cases hm) hp]; rfl
  | int n => rw [processCell_non_dict (by intro m hm; cases hm) hp]; rfl
  | str s => rw [processCell_non_dict (by intro m hm; cases hm) hp]; rfl
  | list l => rw [processCell_non_dict (by intro m hm; cases hm) hp]; rfl
  | dict c =>
    have hn' : keysNodup c = true := hn
    unfold processCell at hp
    cases hdet : determine_keep_output (PyVal.dict c) ko si with
    | error e => rw [hdet] at hp; exact absurd hp (by simp)
    | ok kv =>
      simp only [hdet] at hp
      cases ho : dictHas c "outputs" with
      | false =>
        simp only [pyContains, ho, Bool.false_eq_true, if_false] at hp
        refine stripCellCounts_counts_nulled hn' ?_ hp
        intro os hos
        rw [dictGetD_absent ho] at hos
        injection hos with hos
        subst hos
        rfl
      | true =>
        simp only [pyContains, ho, if_true, pyGetItem] at hp
        cases tk : truthy kv with
        | true =>
          simp only [tk, Bool.not_true, Bool.false_eq_true, if_false, Bool.not_false,
            if_true] at hp
          cases hnull : nullOutputCounts (dictGetD c "outputs" PyVal.none) with
          | error e =>
            simp only [hnull] at hp
            exact absurd hp (by simp)
          | ok outs2 =>
            simp only [hnull, pySetItem] at hp
            refine stripCellCounts_counts_nulled (keysNodup_dictSet _ _ _ hn') ?_ hp
            intro os hos
            rw [dictGetD_dictSet_self] at hos
            exact nullOutputCounts_all_nulled hnull os hos
        | false =>
          simp only [tk, Bool.not_false, if_true] at hp
          cases hit : pyIterate (dictGetD c "outputs" PyVal.none) with
          | error e =>
            simp only [hit] at hp
            exact absurd hp (by simp)
          | ok items =>
            simp only [hit] at hp
            cases hnull : nullOutputCounts (PyVal.list (filterBySize ms items)) with
            | error e =>
              simp only [hnull] at hp
              exact absurd hp (by simp)
            | ok outs2 =>
              simp only [hnull, pySetItem] at hp
              refine stripCellCounts_counts_nulled (keysNodup_dictSet _ _ _ hn') ?_ hp
              intro os hos
              rw [dictGetD_dictSet_self] at hos
              exact nullOutputCounts_all_nulled hnull os hos

theorem popMetadataKeys_shape {nb nb1 : PyVal} {mks : List String}
    (h : popMetadataKeys nb mks = Except.ok nb1) :
    nb1 = nb ∨ ∃ n md', nb = PyVal.dict n ∧ nb1 = PyVal.dict (dictSet n "metadata" md') := by
  cases mks with
  | nil =>
    unfold popMetadataKeys at h
    injection h with h
    exact Or.inl h.symm
  | cons k ks =>
    unfold popMetadataKeys at h
    cases ha : pyAttr nb "metadata" with
    | error e => rw [ha] at h; exact absurd h (by simp)
    | ok md =>
      simp only [ha] at h
      obtain ⟨n, hn, _, _⟩ := pyAttr_ok_inv ha
      subst hn
      simp only [pySetItem] at h
      injection h with h
      exact Or.inr ⟨n, _, rfl, h.symm⟩

theorem cellsPipeline_mem {conds : List (PyVal → Except PyErr Bool)}
    {proc : PyVal → Except PyErr PyVal} {cells0 cells' : PyVal}
    (h : cellsPipeline conds proc cells0 = Except.ok cells') :
    ∀ l', cells' = PyVal.list l' → ∀ y ∈ l',
      ∃ x, proc x = Except.ok y ∧
        (x ∈ (match cells0 with | PyVal.list l => l | _ => ([] : List PyVal)) ∨
          (∀ m, x ≠ PyVal.dict m)) := by
  intro l' hl' y hy
  cases conds with
  | nil =>
    cases cells0 with
    | list l =>
      unfold cellsPipeline at h
      cases hm : pyMapM proc l with
      | error e => simp [hm] at h
      | ok l2 =>
        simp only [hm] at h
        injection h with h
        rw [← h] at hl'
        injection hl' with hl'
        subst hl'
        obtain ⟨x, hx, hpx⟩ := pyMapM_ok_mem hm y hy
        exact ⟨x, hpx, Or.inl hx⟩
    | str s =>
      unfold cellsPipeline at h
      cases hm : pyMapM proc (s.data.map (fun c => PyVal.str (String.mk [c]))) with
      | error e => simp [hm] at h
      | ok l2 =>
        simp only [hm] at h
        injection h with h
        rw [← h] at hl'
        exact absurd hl' (by simp)
    | dict m =>
      unfold cellsPipeline at h
      cases hm : pyMapM proc (m.map (fun kv => PyVal.str kv.1)) with
      | error e => simp [hm] at h
      | ok l2 =>
        simp only [hm] at h
        injection h with h
        rw [← h] at hl'
        exact absurd hl' (by simp)
    | none => simp [cellsPipeline] at h
    | bool b => simp [cellsPipeline] at h
    | int n => simp [cellsPipeline] at h
  | cons cnd cs =>
    unfold cellsPipeline at h
    cases hit : pyIterate cells0 with
    | error e => rw [hit] at h; exact absurd h (by simp)
    | ok items =>
      simp only [hit] at h
      cases hf : pyFilter cnd items with
      | error e => rw [hf] at h; exact absurd h (by simp)
      | ok l1 =>
        simp only [hf] at h
        cases hac : applyConditionals cs l1 with
        | error e => rw [hac] at h; exact absurd h (by simp)
        | ok lF =>
          simp only [hac] at h
          cases hm : pyMapM proc lF with
          | error e => rw [hm] at h; exact absurd h (by simp)
          | ok l2 =>
            simp only [hm] at h
            injection h with h
            rw [← h] at hl'
            injection hl' with hl'
            subst hl'
            obtain ⟨x, hx, hpx⟩ := pyMapM_ok_mem hm y hy
            have hxItems : x ∈ items :=
              pyFilter_ok_mem hf x (applyConditionals_ok_mem cs hac x hx)
            refine ⟨x, hpx, ?_⟩
            cases cells0 with
            | list l =>
              left
              have hil : l = items := by
                unfold pyIterate at hit
                injection hit
              rw [← hil] at hxItems
              exact hxItems
            | str s =>
              right
              have hil : s.data.map (fun c => PyVal.str (String.mk [c])) = items := by
                unfold pyIterate at hit
                injection hit
              rw [← hil] at hxItems
              obtain ⟨cch, _, hcx⟩ := List.mem_map.mp hxItems
              intro mm hmm
              rw [← hcx] at hmm
              cases hmm
            | dict m =>
              right
              have hil : m.map (fun kv => PyVal.str kv.1) = items := by
                unfold pyIterate at hit
                injection hit
              rw [← hil] at hxItems
              obtain ⟨kv, _, hcx⟩ := List.mem_map.mp hxItems
              intro mm hmm
              rw [← hcx] at hmm
              cases hmm
            | none => simp [pyIterate] at hit
            | bool b => simp [pyIterate] at hit
            | int n => simp [pyIterate] at hit

theorem processWorksheet_ok {conds : List (PyVal → Except PyErr Bool)}
    {proc : PyVal → Except PyErr PyVal} {ws ws' : PyVal}
    (h : processWorksheet conds proc ws = Except.ok ws') :
    ∃ w cells', ws = PyVal.dict w ∧ dictHas w "cells" = true ∧
      ws' = PyVal.dict (dictSet w "cells" cells') ∧
      cellsPipeline conds proc (dictGetD w "cells" PyVal.none) = Except.ok cells' := by
  cases ws with
  | dict w =>
    unfold processWorksheet at h
    cases hc : dictHas w "cells" with
    | false => simp [hc] at h
    | true =>
      simp only [hc, if_true] at h
      cases hcp : cellsPipeline conds proc (dictGetD w "cells" PyVal.none) with
      | error e => rw [hcp] at h; exact absurd h (by simp)
      | ok cells' =>
        simp only [hcp] at h
        injection h with h
        exact ⟨w, cells', rfl, hc, h.symm, hcp⟩
  | none => simp [processWorksheet] at h
  | bool b => simp [processWorksheet] at h
  | int n => simp [processWorksheet] at h
  | str s => simp [processWorksheet] at h
  | list l => simp [processWorksheet] at h

theorem mem_wsCells_foldr {l : List PyVal} {x : PyVal} :
    x ∈ l.foldr (fun w acc => wsCells w ++ acc) [] ↔ ∃ w ∈ l, x ∈ wsCells w := by
  induction l with
  | nil => simp
  | cons a as ih =>
    simp only [List.foldr_cons, List.mem_append, ih, List.mem_cons]
    constructor
    · rintro (hx | ⟨w, hw, hxw⟩)
      · exact ⟨a, Or.inl rfl, hx⟩
      · exact ⟨w, Or.inr hw, hxw⟩
    · rintro ⟨w, hw | hw, hxw⟩
      · subst hw; exact Or.inl hxw
      · exact Or.inr ⟨w, hw, hxw⟩

/-- A `cell.*` pop whose path neither is nor starts with `execution_count` or
`prompt_number` leaves those fields untouched, and can only leave the
`outputs` field's list value exactly as it was (or remove it / leave it as a
non-list). -/
theorem pop_preserves_counts_keep {m : List (String × PyVal)} {k : String}
    (hn : keysNodup m = true)
    (hke : k ≠ "execution_count") (hkp : k ≠ "prompt_number")
    (hse : ∀ t, splitFirstDot k ≠ Option.some ("execution_count", t))
    (hsp : ∀ t, splitFirstDot k ≠ Option.some ("prompt_number", t)) :
    ∃ m', (pop_recursive (PyVal.dict m) k PyVal.none).2 = PyVal.dict m' ∧
      keysNodup m' = true ∧
      dictHas m' "execution_count" = dictHas m "execution_count" ∧
      dictGetD m' "execution_count" PyVal.none = dictGetD m "execution_count" PyVal.none ∧
      dictHas m' "prompt_number" = dictHas m "prompt_number" ∧
      dictGetD m' "prompt_number" PyVal.none = dictGetD m "prompt_number" PyVal.none ∧
      (∀ os', dictGetD m' "outputs" PyVal.none = PyVal.list os' →
        dictGetD m "outputs" PyVal.none = PyVal.list os') := by
  rw [pop_recursive_eq]
  by_cases hk : dictHas m k = true
  · simp only [hk, if_true]
    refine ⟨dictErase m k, rfl, keysNodup_dictErase m k hn, ?_, ?_, ?_, ?_, ?_⟩
    · exact dictHas_dictErase_ne m hke
    · exact dictGetD_dictErase_ne m PyVal.none hke
    · exact dictHas_dictErase_ne m hkp
    · exact dictGetD_dictErase_ne m PyVal.none hkp
    · intro os' hos'
      by_cases hko : k = "outputs"
      · subst hko
        rw [dictGetD_absent (dictHas_dictErase_self hn)] at hos'
        exact absurd hos' (by simp)
      · rw [dictGetD_dictErase_ne m PyVal.none hko] at hos'
        exact hos'
  · simp only [hk, Bool.false_eq_true, if_false]
    cases hs : splitFirstDot k with
    | none => exact ⟨m, rfl, hn, rfl, rfl, rfl, rfl, fun _ h => h⟩
    | some p =>
      obtain ⟨hd, tl⟩ := p
      have hdne : hd ≠ "execution_count" := by
        intro he; subst he; exact hse tl hs
      have hdnp : hd ≠ "prompt_number" := by
        intro he; subst he; exact hsp tl hs
      by_cases hh : dictHas m hd = true
      · simp only [hh, if_true]
        refine ⟨dictSet m hd (pop_recursive (dictGetD m hd PyVal.none) tl PyVal.none).2,
          rfl, keysNodup_dictSet m hd _ hn, ?_, ?_, ?_, ?_, ?_⟩
        · exact dictHas_dictSet_ne m _ hdne
        · exact dictGetD_dictSet_ne m _ PyVal.none hdne
        · exact dictHas_dictSet_ne m _ hdnp
        · exact dictGetD_dictSet_ne m _ PyVal.none hdnp
        · intro os' hos'
          by_cases hdo : hd = "outputs"
          · subst hdo
            rw [dictGetD_dictSet_self] at hos'
            cases hv : dictGetD m "outputs" PyVal.none with
            | list os0 =>
              rw [hv, pop_recursive_non_dict (by intro mm hmm; cases hmm)] at hos'
              exact hos'
            | dict dm =>
              rw [hv] at hos'
              obtain ⟨x', hx'⟩ := pop_recursive_dict_dict dm tl PyVal.none
              rw [hx'] at hos'
              exact absurd hos' (by simp)
            | none =>
              rw [hv, pop_recursive_non_dict (by intro mm hmm; cases hmm)] at hos'
              exact absurd hos' (by simp)
            | bool b =>
              rw [hv, pop_recursive_non_dict (by intro mm hmm; cases hmm)] at hos'
              exact absurd hos' (by simp)
            | int n =>
              rw [hv, pop_recursive_non_dict (by intro mm hmm; cases hmm)] at hos'
              exact absurd hos' (by simp)
            | str s =>
              rw [hv, pop_recursive_non_dict (by intro mm hmm; cases hmm)] at hos'
              exact absurd hos' (by simp)
          · rw [dictGetD_dictSet_ne m _ PyVal.none hdo] at hos'
            exact hos'
      · simp only [hh, Bool.false_eq_true, if_false]
        exact ⟨m, rfl, hn, rfl, rfl, rfl, rfl, fun _ h => h⟩

theorem foldl_pop_preserves_counts_keep (cks : List String)
    (hres : ∀ k ∈ cks, k ≠ "execution_count" ∧ k ≠ "prompt_number" ∧
      (∀ t, splitFirstDot k ≠ Option.some ("execution_count", t)) ∧
      (∀ t, splitFirstDot k ≠ Option.some ("prompt_number", t))) :
    ∀ (m : List (String × PyVal)), keysNodup m = true →
      ∃ m', cks.foldl (fun c k => (pop_recursive c k PyVal.none).2) (PyVal.dict m) =
          PyVal.dict m' ∧
        keysNodup m' = true ∧
        dictHas m' "execution_count" = dictHas m "execution_count" ∧
        dictGetD m' "execution_count" PyVal.none = dictGetD m "execution_count" PyVal.none ∧
        dictHas m' "prompt_number" = dictHas m "prompt_number" ∧
        dictGetD m' "prompt_number" PyVal.none = dictGetD m "prompt_number" PyVal.none ∧
        (∀ os', dictGetD m' "outputs" PyVal.none = PyVal.list os' →
          dictGetD m "outputs" PyVal.none = PyVal.list os') := by
  induction cks with
  | nil =>
    intro m hn
    exact ⟨m, rfl, hn, rfl, rfl, rfl, rfl, fun _ h => h⟩
  | cons k ks ih =>
    intro m hn
    obtain ⟨hke, hkp, hse, hsp⟩ := hres k (List.mem_cons_self k ks)
    obtain ⟨m1, hm1, hn1, he1, hg1, hp1, hq1, ho1⟩ :=
      pop_preserves_counts_keep hn hke hkp hse hsp
    have hres' : ∀ k' ∈ ks, k' ≠ "execution_count" ∧ k' ≠ "prompt_number" ∧
        (∀ t, splitFirstDot k' ≠ Option.some ("execution_count", t)) ∧
        (∀ t, splitFirstDot k' ≠ Option.some ("prompt_number", t)) :=
      fun k' hk' => hres k' (List.mem_cons_of_mem k hk')
    obtain ⟨m2, hm2, hn2, he2, hg2, hp2, hq2, ho2⟩ := ih hres' m1 hn1
    refine ⟨m2, ?_, hn2, he2.trans he1, hg2.trans hg1, hp2.trans hp1, hq2.trans hq1, ?_⟩
    · show List.foldl _ (pop_recursive (PyVal.dict m) k PyVal.none).2 ks = _
      rw [hm1]
      exact hm2
    · intro os' hos'
      exact ho1 os' (ho2 os' hos')

/-- With `keep_count = true` (and `cell.*` extra keys not targeting the
counter fields), a successfully processed cell keeps its `prompt_number` and
`execution_count` exactly, and its retained outputs form a sublist of the
original outputs. -/
theorem processCell_keepCount_true_preserves {ms : Int} {si : Bool}
    {ko : Option Bool} {cks : List String} {c : List (String × PyVal)}
    {cell' : PyVal}
    (hn : keysNodup c = true)
    (hres : ∀ k ∈ cks, k ≠ "execution_count" ∧ k ≠ "prompt_number" ∧
      (∀ t, splitFirstDot k ≠ Option.some ("execution_count", t)) ∧
      (∀ t, splitFirstDot k ≠ Option.some ("prompt_number", t)))
    (hp : processCell true ms si ko cks (PyVal.dict c) = Except.ok cell') :
    ∃ c', cell' = PyVal.dict c' ∧
      dictHas c' "execution_count" = dictHas c "execution_count" ∧
      dictGetD c' "execution_count" PyVal.none = dictGetD c "execution_count" PyVal.none ∧
      dictHas c' "prompt_number" = dictHas c "prompt_number" ∧
      dictGetD c' "prompt_number" PyVal.none = dictGetD c "prompt_number" PyVal.none ∧
      (∀ outs outs', dictGetD c "outputs" PyVal.none = PyVal.list outs →
        dictGetD c' "outputs" PyVal.none = PyVal.list outs' →
        List.Sublist outs' outs) := by
  unfold processCell at hp
  cases hdet : determine_keep_output (PyVal.dict c) ko si with
  | error e => rw [hdet] at hp; exact absurd hp (by simp)
  | ok kv =>
    simp only [hdet] at hp
    cases ho : dictHas c "outputs" with
    | false =>
      simp only [pyContains, ho, Bool.false_eq_true, if_false] at hp
      have hc' := stripCellCounts_keepCount_true hp
      obtain ⟨m', hm', hn', he, hg, hq, hr, hout⟩ :=
        foldl_pop_preserves_counts_keep cks hres c hn
      rw [hm'] at hc'
      subst hc'
      refine ⟨m', rfl, he, hg, hq, hr, ?_⟩
      intro outs outs' houts houts'
      have h2 := hout outs' houts'
      rw [houts] at h2
      injection h2 with h2
      rw [← h2]
    | true =>
      simp only [pyContains, ho, if_true, pyGetItem] at hp
      cases tk : truthy kv with
      | true =>
        simp only [tk, Bool.not_true, Bool.false_eq_true, if_false, pySetItem] at hp
        rw [dictSet_getD_self PyVal.none ho] at hp
        have hc' := stripCellCounts_keepCount_true hp
        obtain ⟨m', hm', hn', he, hg, hq, hr, hout⟩ :=
          foldl_pop_preserves_counts_keep cks hres c hn
        rw [hm'] at hc'
        subst hc'
        refine ⟨m', rfl, he, hg, hq, hr, ?_⟩
        intro outs outs' houts houts'
        have h2 := hout outs' houts'
        rw [houts] at h2
        injection h2 with h2
        rw [← h2]
      | false =>
        simp only [tk, Bool.not_false, if_true] at hp
        cases hit : pyIterate (dictGetD c "outputs" PyVal.none) with
        | error e => simp only [hit] at hp; exact absurd hp (by simp)
        | ok items =>
          simp only [hit, Bool.not_true, Bool.false_eq_true, if_false, pySetItem] at hp
          have hc' := stripCellCounts_keepCount_true hp
          have hn1 : keysNodup (dictSet c "outputs"
              (PyVal.list (filterBySize ms items))) = true :=
            keysNodup_dictSet _ _ _ hn
          obtain ⟨m', hm', hn', he, hg, hq, hr, hout⟩ :=
            foldl_pop_preserves_counts_keep cks hres _ hn1
          rw [hm'] at hc'
          subst hc'
          have ne_pn : "outputs" ≠ "prompt_number" := by decide
          have ne_ec : "outputs" ≠ "execution_count" := by decide
          refine ⟨m', rfl, ?_, ?_, ?_, ?_, ?_⟩
          · rw [he, dictHas_dictSet_ne c _ ne_ec]
          · rw [hg, dictGetD_dictSet_ne c _ PyVal.none ne_ec]
          · rw [hq, dictHas_dictSet_ne c _ ne_pn]
          · rw [hr, dictGetD_dictSet_ne c _ PyVal.none ne_pn]
          · intro outs outs' houts houts'
            have h2 := hout outs' houts'
            rw [dictGetD_dictSet_self] at h2
            injection h2 with h2
            rw [houts] at hit
            have hoi : outs = items := by
              unfold pyIterate at hit
              injection hit
            rw [← h2, ← hoi]
            exact List.filter_sublist _

theorem docCells_dict (n : List (String × PyVal)) :
    docCells (PyVal.dict n) =
      match nbfLt4 (dictGetD n "nbformat" PyVal.none) with
      | Except.ok true =>
        match dictGetD n "worksheets" (PyVal.list []) with
        | PyVal.list wss => wss.foldr (fun w acc => wsCells w ++ acc) []
        | _ => []
      | _ =>
        match dictGetD n "cells" (PyVal.list []) with
        | PyVal.list cs => cs
        | _ => [] := rfl

theorem wsCells_dict (w : List (String × PyVal)) :
    wsCells (PyVal.dict w) =
      match dictGetD w "cells" (PyVal.list []) with
      | PyVal.list cs => cs
      | _ => [] := rfl

/-- Counterexample for C7: with `keep_count = true` but
`extra_keys = ["cell.execution_count"]`, the cell's original
`execution_count = 5` is deleted by the extra-key pop rather than preserved
unchanged, refuting the unconditional preservation clause of the claim. -/
theorem strip_output_keep_count_extra_key_removes_count :
    strip_output
        (PyVal.dict [("nbformat", PyVal.int 4), ("metadata", PyVal.dict []),
          ("cells", PyVal.list [PyVal.dict [("execution_count", PyVal.int 5)]])])
        { keep_output := Option.some true, keep_count := true,
          extra_keys := ["cell.execution_count"] } =
      (Except.ok (PyVal.dict [("nbformat", PyVal.int 4), ("metadata", PyVal.dict []),
        ("cells", PyVal.list [PyVal.dict []])]), []) := rfl

/-- C7 (amended): (1) after a successful `strip_output` with
`keep_count = false` on a document whose cells are mappings with
duplicate-free keys, every cell of the result has a null `prompt_number` and
`execution_count` wherever present, and every retained output's
`execution_count` (where present) is null; (2) with `keep_count = true`, each
successfully processed cell keeps its original `prompt_number` and
`execution_count` (presence and value), and its retained outputs are a
sublist of the original outputs — provided no `cell.*` extra key is or starts
with `execution_count` or `prompt_number` (the counterexample shows such a
key deletes the count). -/
theorem strip_output_keep_count_spec :
    (∀ (nb : PyVal) (args : StripArgs) (r : PyVal) (w : List String),
      args.keep_count = false →
      (∀ cell ∈ docCells nb, topNodup cell = true) →
      strip_output nb args = (Except.ok r, w) →
      ∀ cell ∈ docCells r, cellCountsNulled cell = true) ∧
    (∀ (ms : Int) (si : Bool) (ko : Option Bool) (cks : List String)
        (c : List (String × PyVal)) (cell' : PyVal),
      keysNodup c = true →
      (∀ k ∈ cks, k ≠ "execution_count" ∧ k ≠ "prompt_number" ∧
        (∀ t, splitFirstDot k ≠ Option.some ("execution_count", t)) ∧
        (∀ t, splitFirstDot k ≠ Option.some ("prompt_number", t))) →
      processCell true ms si ko cks (PyVal.dict c) = Except.ok cell' →
      ∃ c', cell' = PyVal.dict c' ∧
        dictHas c' "execution_count" = dictHas c "execution_count" ∧
        dictGetD c' "execution_count" PyVal.none = dictGetD c "execution_count" PyVal.none ∧
        dictHas c' "prompt_number" = dictHas c "prompt_number" ∧
        dictGetD c' "prompt_number" PyVal.none = dictGetD c "prompt_number" PyVal.none ∧
        (∀ outs outs', dictGetD c "outputs" PyVal.none = PyVal.list outs →
          dictGetD c' "outputs" PyVal.none = PyVal.list outs' →
          List.Sublist outs' outs)) := by
  constructor
  · intro nb args r w hkc hnodup hstrip cell hcell
    unfold strip_output at hstrip
    cases hres : resolveKeepOutput nb args.keep_output with
    | error e => rw [hres] at hstrip; simp at hstrip
    | ok ko =>
      simp only [hres] at hstrip
      rw [Prod.mk.injEq] at hstrip
      obtain ⟨hr, hw⟩ := hstrip
      cases hpm : popMetadataKeys nb (classifyKeys args.extra_keys).1 with
      | error e => rw [hpm] at hr; exact absurd hr (by simp)
      | ok nb1 =>
        simp only [hpm] at hr
        unfold cellsStage at hr
        cases hnbf : pyAttr nb1 "nbformat" with
        | error e => rw [hnbf] at hr; exact absurd hr (by simp)
        | ok nbf =>
          simp only [hnbf] at hr
          cases hlt : nbfLt4 nbf with
          | error e => rw [hlt] at hr; exact absurd hr (by simp)
          | ok b =>
            simp only [hlt] at hr
            obtain ⟨n1, hn1, hhasNbf, hnbfv⟩ := pyAttr_ok_inv hnbf
            subst hn1
            obtain ⟨n, hnb, hgetPres⟩ :
                ∃ n, nb = PyVal.dict n ∧
                  (∀ (k : String) (d : PyVal), k ≠ "metadata" →
                    dictGetD n k d = dictGetD n1 k d) := by
              rcases popMetadataKeys_shape hpm with heq | ⟨n, md', hnbEq, hset⟩
              · exact ⟨n1, heq.symm, fun _ _ _ => rfl⟩
              · injection hset with hset
                refine ⟨n, hnbEq, ?_⟩
                intro k d hk
                rw [hset, dictGetD_dictSet_ne n md' d (Ne.symm hk)]
            cases b with
            | false =>
              cases hcells : pyAttr (PyVal.dict n1) "cells" with
              | error e => rw [hcells] at hr; exact absurd hr (by simp)
              | ok cells0 =>
                simp only [hcells] at hr
                cases hcp : cellsPipeline
                    (conditionals args.drop_empty_cells args.drop_tagged_cells)
                    (processCell args.keep_count args.max_size args.strip_init_cells ko
                      (classifyKeys args.extra_keys).2.1) cells0 with
                | error e => rw [hcp] at hr; exact absurd hr (by simp)
                | ok cells' =>
                  simp only [hcp, pySetItem] at hr
                  injection hr with hr
                  subst hr
                  obtain ⟨n1', heqc, hhasC, hcellsv⟩ := pyAttr_ok_inv hcells
                  injection heqc with heqc
                  subst heqc
                  have e1 : dictGetD (dictSet n1 "cells" cells') "nbformat" PyVal.none
                      = nbf := by
                    rw [dictGetD_dictSet_ne n1 cells' PyVal.none
                      (show "cells" ≠ "nbformat" by decide)]
                    exact hnbfv.symm
                  rw [docCells_dict, e1, hlt, dictGetD_dictSet_self] at hcell
                  cases cells' with
                  | list l' =>
                    have hcl : cell ∈ l' := hcell
                    obtain ⟨x, hpx, hdisj⟩ := cellsPipeline_mem hcp l' rfl cell hcl
                    rw [hkc] at hpx
                    rcases hdisj with hx | hnd
                    · cases hcv : cells0 with
                      | list l0 =>
                        rw [hcv] at hx
                        have hx' : x ∈ l0 := hx
                        have hdoc : docCells nb = l0 := by
                          rw [hnb, docCells_dict]
                          have hc1 : dictGetD n "nbformat" PyVal.none = nbf := by
                            rw [hgetPres "nbformat" PyVal.none (by decide)]
                            exact hnbfv.symm
                          have hc2 : dictGetD n "cells" (PyVal.list [])
                              = PyVal.list l0 := by
                            rw [hgetPres "cells" (PyVal.list []) (by decide),
                              dictGetD_default_irrelevant hhasC (PyVal.list []) PyVal.none,
                              ← hcellsv]
                            exact hcv
                          rw [hc1, hlt, hc2]
                        have htop := hnodup x (by rw [hdoc]; exact hx')
                        exact processCell_counts_nulled htop hpx
                      | none =>
                        rw [hcv] at hx
                        exact absurd hx (by simp)
                      | bool bb =>
                        rw [hcv] at hx
                        exact absurd hx (by simp)
                      | int nn =>
                        rw [hcv] at hx
                        exact absurd hx (by simp)
                      | str ss =>
                        rw [hcv] at hx
                        exact absurd hx (by simp)
                      | dict mm =>
                        rw [hcv] at hx
                        exact absurd hx (by simp)
                    · have htop : topNodup x = true := by
                        cases x with
                        | dict mm => exact absurd rfl (hnd mm)
                        | none => rfl
                        | bool bb => rfl
                        | int nn => rfl
                        | str ss => rfl
                        | list ll => rfl
                      exact processCell_counts_nulled htop hpx
                  | none => exact absurd hcell (by simp)
                  | bool bb => exact absurd hcell (by simp)
                  | int nn => exact absurd hcell (by simp)
                  | str ss => exact absurd hcell (by simp)
                  | dict mm => exact absurd hcell (by simp)
            | true =>
              cases hws : pyAttr (PyVal.dict n1) "worksheets" with
              | error e => rw [hws] at hr; exact absurd hr (by simp)
              | ok wss =>
                simp only [hws] at hr
                cases hit : pyIterate wss with
                | error e => rw [hit] at hr; exact absurd hr (by simp)
                | ok items =>
                  simp only [hit] at hr
                  cases hmapws : pyMapM (processWorksheet
                      (conditionals args.drop_empty_cells args.drop_tagged_cells)
                      (processCell args.keep_count args.max_size args.strip_init_cells ko
                        (classifyKeys args.extra_keys).2.1)) items with
                  | error e => rw [hmapws] at hr; exact absurd hr (by simp)
                  | ok items' =>
                    simp only [hmapws] at hr
                    obtain ⟨n1w, heqw, hhasW, hwsv⟩ := pyAttr_ok_inv hws
                    injection heqw with heqw
                    subst heqw
                    cases wss with
                    | list wl =>
                      simp only [pySetItem] at hr
                      injection hr with hr
                      subst hr
                      have e1 : dictGetD (dictSet n1 "worksheets" (PyVal.list items'))
                          "nbformat" PyVal.none = nbf := by
                        rw [dictGetD_dictSet_ne n1 _ PyVal.none
                          (show "worksheets" ≠ "nbformat" by decide)]
                        exact hnbfv.symm
                      rw [docCells_dict, e1, hlt, dictGetD_dictSet_self] at hcell
                      have hcell' : cell ∈ items'.foldr (fun w acc => wsCells w ++ acc) [] :=
                        hcell
                      obtain ⟨w', hw', hcw⟩ := mem_wsCells_foldr.mp hcell'
                      obtain ⟨ws, hwsIn, hpw⟩ := pyMapM_ok_mem hmapws w' hw'
                      obtain ⟨wd, cells', hwsd, hhasCW, hw'eq, hcp⟩ := processWorksheet_ok hpw
                      subst hw'eq
                      rw [wsCells_dict, dictGetD_dictSet_self] at hcw
                      cases cells' with
                      | list l' =>
                        have hcl : cell ∈ l' := hcw
                        obtain ⟨x, hpx, hdisj⟩ := cellsPipeline_mem hcp l' rfl cell hcl
                        rw [hkc] at hpx
                        rcases hdisj with hx | hnd
                        · cases hcv : dictGetD wd "cells" PyVal.none with
                          | list l0 =>
                            rw [hcv] at hx
                            have hx' : x ∈ l0 := hx
                            have hdoc : x ∈ docCells nb := by
                              rw [hnb, docCells_dict]
                              have hc1 : dictGetD n "nbformat" PyVal.none = nbf := by
                                rw [hgetPres "nbformat" PyVal.none (by decide)]
                                exact hnbfv.symm
                              have hc2 : dictGetD n "worksheets" (PyVal.list [])
                                  = PyVal.list wl := by
                                rw [hgetPres "worksheets" (PyVal.list []) (by decide),
                                  dictGetD_default_irrelevant hhasW (PyVal.list [])
                                    PyVal.none]
                                exact hwsv.symm
                              rw [hc1, hlt, hc2]
                              refine mem_wsCells_foldr.mpr ⟨ws, ?_, ?_⟩
                              · have hil : wl = items := by
                                  unfold pyIterate at hit
                                  injection hit
                                rw [hil]
                                exact hwsIn
                              · rw [hwsd, wsCells_dict,
                                  dictGetD_default_irrelevant hhasCW (PyVal.list [])
                                    PyVal.none, hcv]
                                exact hx'
                            have htop := hnodup x hdoc
                            exact processCell_counts_nulled htop hpx
                          | none =>
                            rw [hcv] at hx
                            exact absurd hx (by simp)
                          | bool bb =>
                            rw [hcv] at hx
                            exact absurd hx (by simp)
                          | int nn =>
                            rw [hcv] at hx
                            exact absurd hx (by simp)
                          | str ss =>
                            rw [hcv] at hx
                            exact absurd hx (by simp)
                          | dict mm =>
                            rw [hcv] at hx
                            exact absurd hx (by simp)
                        · have htop : topNodup x = true := by
                            cases x with
                            | dict mm => exact absurd rfl (hnd mm)
                            | none => rfl
                            | bool bb => rfl
                            | int nn => rfl
                            | str ss => rfl
                            | list ll => rfl
                          exact processCell_counts_nulled htop hpx
                      | none => exact absurd hcw (by simp)
                      | bool bb => exact absurd hcw (by simp)
                      | int nn => exact absurd hcw (by simp)
                      | str ss => exact absurd hcw (by simp)
                      | dict mm => exact absurd hcw (by simp)
                    | str ss =>
                      injection hr with hr
                      subst hr
                      rw [docCells_dict, ← hnbfv, hlt] at hcell
                      have hw2 : dictGetD n1 "worksheets" (PyVal.list []) = PyVal.str ss := by
                        rw [dictGetD_default_irrelevant hhasW (PyVal.list []) PyVal.none]
                        exact hwsv.symm
                      rw [hw2] at hcell
                      exact absurd hcell (by simp)
                    | dict md =>
                      injection hr with hr
                      subst hr
                      rw [docCells_dict, ← hnbfv, hlt] at hcell
                      have hw2 : dictGetD n1 "worksheets" (PyVal.list [])
                          = PyVal.dict md := by
                        rw [dictGetD_default_irrelevant hhasW (PyVal.list []) PyVal.none]
                        exact hwsv.symm
                      rw [hw2] at hcell
                      exact absurd hcell (by simp)
                    | none => simp [pyIterate] at hit
                    | bool bb => simp [pyIterate] at hit
                    | int nn => simp [pyIterate] at hit
  · intro ms si ko cks c cell' hn hres hp
    exact processCell_keepCount_true_preserves hn hres hp

theorem strip_output_keep_count_spec_witness :
    ((∀ cell ∈ docCells
        (PyVal.dict [("nbformat", PyVal.int 4), ("metadata", PyVal.dict []),
          ("cells", PyVal.list [PyVal.dict [("execution_count", PyVal.int 5),
            ("prompt_number", PyVal.int 3),
            ("outputs", PyVal.list [PyVal.dict [("execution_count", PyVal.int 2),
              ("text", PyVal.str "")]])]])]),
        topNodup cell = true) ∧
      (∀ cell ∈ docCells
        (PyVal.dict [("nbformat", PyVal.int 4), ("metadata", PyVal.dict []),
          ("cells", PyVal.list [PyVal.dict [("execution_count", PyVal.none),
            ("prompt_number", PyVal.none),
            ("outputs", PyVal.list [PyVal.dict [("execution_count", PyVal.none),
              ("text", PyVal.str "")]])]])]),
        cellCountsNulled cell = true)) ∧
    (keysNodup [("execution_count", PyVal.int 7)] = true ∧
      ∃ c', PyVal.dict [("execution_count", PyVal.int 7)] = PyVal.dict c' ∧
        dictHas c' "execution_count"
          = dictHas [("execution_count", PyVal.int 7)] "execution_count" ∧
        dictGetD c' "execution_count" PyVal.none
          = dictGetD [("execution_count", PyVal.int 7)] "execution_count" PyVal.none ∧
        dictHas c' "prompt_number"
          = dictHas [("execution_count", PyVal.int 7)] "prompt_number" ∧
        dictGetD c' "prompt_number" PyVal.none
          = dictGetD [("execution_count", PyVal.int 7)] "prompt_number" PyVal.none ∧
        (∀ outs outs',
          dictGetD [("execution_count", PyVal.int 7)] "outputs" PyVal.none
            = PyVal.list outs →
          dictGetD c' "outputs" PyVal.none = PyVal.list outs' →
          List.Sublist outs' outs)) := by
  have htop : ∀ cell ∈ docCells
      (PyVal.dict [("nbformat", PyVal.int 4), ("metadata", PyVal.dict []),
        ("cells", PyVal.list [PyVal.dict [("execution_count", PyVal.int 5),
          ("prompt_number", PyVal.int 3),
          ("outputs", PyVal.list [PyVal.dict [("execution_count", PyVal.int 2),
            ("text", PyVal.str "")]])]])]),
      topNodup cell = true := by
    intro cell hcell
    have h : cell ∈ [PyVal.dict [("execution_count", PyVal.int 5),
        ("prompt_number", PyVal.int 3),
        ("outputs", PyVal.list [PyVal.dict [("execution_count", PyVal.int 2),
          ("text", PyVal.str "")]])]] := hcell
    rw [List.mem_singleton] at h
    subst h
    rfl
  refine ⟨⟨htop, ?_⟩, rfl, ?_⟩
  · exact strip_output_keep_count_spec.1
      (PyVal.dict [("nbformat", PyVal.int 4), ("metadata", PyVal.dict []),
        ("cells", PyVal.list [PyVal.dict [("execution_count", PyVal.int 5),
          ("prompt_number", PyVal.int 3),
          ("outputs", PyVal.list [PyVal.dict [("execution_count", PyVal.int 2),
            ("text", PyVal.str "")]])]])])
      { keep_output := Option.some true, keep_count := false }
      (PyVal.dict [("nbformat", PyVal.int 4), ("metadata", PyVal.dict []),
        ("cells", PyVal.list [PyVal.dict [("execution_count", PyVal.none),
          ("prompt_number", PyVal.none),
          ("outputs", PyVal.list [PyVal.dict [("execution_count", PyVal.none),
            ("text", PyVal.str "")]])]])])
      [] rfl htop rfl
  · exact strip_output_keep_count_spec.2 0 false (Option.some true) []
      [("execution_count", PyVal.int 7)] (PyVal.dict [("execution_count", PyVal.int 7)])
      rfl (by simp) rfl
